import Mathlib

/-!
Verification development for the msgpack-cpp-lite codec (`src/msgpack.hpp`).

The C++ source is shallowly embedded as executable Lean functions:

* Byte streams are `List Nat` with every entry below 256.
* `Packer::write<T>(data)` performs `out_.write((char*) &data, sizeof(T))`,
  i.e. it copies the native object representation of the integer to the
  stream with no byte-order conversion.  The embedding models the standard
  little-endian LP64 host (x86-64 / aarch64: `short` = 2 bytes, `int` = 4,
  `long` = 8, little-endian), so a `w`-byte write emits the `w` bytes of the
  value least-significant first (`leBytes`).
* Machine integers are `Int`/`Nat` with explicit two's-complement wrapping
  (`toUns`, `toSigned`).
* `float`/`double` payloads are carried as their raw 4- and 8-byte bit patterns
  (`Nat` below `2^32`/`2^64`); the codec never interprets them numerically.
* The decoder's only exception type (`unpack_exception`, thrown when the
  input stream hits EOF inside a read) is `StreamErr.exhausted`; a null
  `Object*` returned by `Unpacker::unpack` is `Option.none`.
* Heap allocation is tracked by a ledger: every `new` in the decoder bumps a
  `live` counter, and nothing in the decoder ever calls `delete`, exactly as
  in the source (destruction happens only when the caller deletes the
  returned tree, which is outside a decode call).
-/

/-- Two's-complement image of an integer in `w` bits, as a natural number:
the value actually stored in memory when the C++ code converts to a `w`-bit
integer type. -/
def toUns (w : Nat) (v : Int) : Nat :=
  (v % ((2 : Int) ^ w)).toNat

/-- Reading `n` (assumed below `2 ^ w`) back as a signed two's-complement
`w`-bit integer, as the C++ decoder does when it reads into a signed type. -/
def toSigned (w : Nat) (n : Nat) : Int :=
  if n % 2 ^ w < 2 ^ (w - 1) then ((n % 2 ^ w : Nat) : Int)
  else ((n % 2 ^ w : Nat) : Int) - 2 ^ w

/-- The `w` bytes of a natural number, least significant first: the object
representation of a `w`-byte unsigned integer on a little-endian host. -/
def leBytes : Nat → Nat → List Nat
  | 0, _ => []
  | w + 1, n => n % 256 :: leBytes w (n / 256)

/-- Value denoted by a little-endian byte list (bytes assumed below 256). -/
def leVal : List Nat → Nat
  | [] => 0
  | b :: t => b + 256 * leVal t

/-- Model of `Packer::write<T>(value)` for a `size`-byte integer type `T`:
the native (little-endian) object representation of `value` wrapped to
`size` bytes. -/
def writeBytes (size : Nat) (v : Int) : List Nat :=
  leBytes size (toUns (8 * size) v)

/-- Type identifier constants from namespace `bm` of the source. -/
def bm.MP_INT8 : Nat := 0xd0
def bm.MP_INT16 : Nat := 0xd1
def bm.MP_INT32 : Nat := 0xd2
def bm.MP_INT64 : Nat := 0xd3
def bm.MP_UINT8 : Nat := 0xcc
def bm.MP_UINT16 : Nat := 0xcd
def bm.MP_UINT32 : Nat := 0xce
def bm.MP_UINT64 : Nat := 0xcf
def bm.MP_FIXNUM : Nat := 0x00
def bm.MP_NEGATIVE_FIXNUM : Nat := 0xe0
def bm.MP_NULL : Nat := 0xc0
def bm.MP_FALSE : Nat := 0xc2
def bm.MP_TRUE : Nat := 0xc3
def bm.MP_FLOAT : Nat := 0xca
def bm.MP_DOUBLE : Nat := 0xcb
def bm.MP_RAW16 : Nat := 0xda
def bm.MP_RAW32 : Nat := 0xdb
def bm.MP_FIXRAW : Nat := 0xa0
def bm.MP_ARRAY16 : Nat := 0xdc
def bm.MP_ARRAY32 : Nat := 0xdd
def bm.MP_FIXARRAY : Nat := 0x90
def bm.MP_MAP16 : Nat := 0xde
def bm.MP_MAP32 : Nat := 0xdf
def bm.MP_FIXMAP : Nat := 0x80

def bm.MAX_4BIT : Int := 0xf
def bm.MAX_5BIT : Int := 0x1f
def bm.MAX_7BIT : Int := 0x7f
def bm.MAX_8BIT : Int := 0xff
def bm.MAX_15BIT : Int := 0x7fff
def bm.MAX_16BIT : Int := 0xffff
def bm.MAX_31BIT : Int := 0x7fffffff
def bm.MAX_32BIT : Int := 0xffffffff

/-- Model of `Packer::pack(long value)` (the single integer encode path:
`pack(int)` forwards here).  Mirrors the source's branch structure; the
positive fixnum branch writes `char(value) | MP_FIXNUM` and the negative one
`char(value) | MP_NEGATIVE_FIXNUM`. -/
def pack_long (value : Int) : List Nat :=
  if 0 ≤ value then
    if value ≤ bm.MAX_7BIT then
      [toUns 8 value ||| bm.MP_FIXNUM]
    else if value ≤ bm.MAX_8BIT then
      bm.MP_UINT8 :: writeBytes 1 value
    else if value ≤ bm.MAX_16BIT then
      bm.MP_UINT16 :: writeBytes 2 value
    else if value ≤ bm.MAX_32BIT then
      bm.MP_UINT32 :: writeBytes 4 value
    else
      bm.MP_UINT64 :: writeBytes 8 value
  else
    if -(bm.MAX_5BIT + 1) ≤ value then
      [toUns 8 value ||| bm.MP_NEGATIVE_FIXNUM]
    else if -(bm.MAX_7BIT + 1) ≤ value then
      bm.MP_INT8 :: writeBytes 1 value
    else if -(bm.MAX_15BIT + 1) ≤ value then
      bm.MP_INT16 :: writeBytes 2 value
    else if -(bm.MAX_31BIT + 1) ≤ value then
      bm.MP_INT32 :: writeBytes 4 value
    else
      bm.MP_INT64 :: writeBytes 8 value

/-- Model of `Packer::pack(const char* data, std::size_t length)`: raw
header (fixraw / raw16 / raw32, smallest first) followed by the bytes
verbatim.  `data` is the exact region `[data, data + length)`. -/
def pack_raw (data : List Nat) : List Nat :=
  (if (data.length : Int) ≤ bm.MAX_5BIT then
      [data.length ||| bm.MP_FIXRAW]
    else if (data.length : Int) ≤ bm.MAX_16BIT then
      bm.MP_RAW16 :: writeBytes 2 data.length
    else
      bm.MP_RAW32 :: writeBytes 4 data.length) ++ data

/-- Model of `strlen`: number of bytes before the first NUL. -/
def strlen (s : List Nat) : Nat :=
  (s.takeWhile (fun b => b ≠ 0)).length

/-- Model of `Packer::pack(const char* item)` for a non-null pointer: packs
the region `[item, item + strlen(item))`. -/
def pack_cstr (s : List Nat) : List Nat :=
  pack_raw (s.take (strlen s))

/-- Model of `Packer::pack(const std::basic_string<char>&)`:
`pack(value.c_str())`, i.e. the C-string overload on the underlying
buffer. `s` is the full byte content of the `std::string` (it may contain
interior NULs; `c_str()` appends the terminating NUL after them). -/
def pack_string (s : List Nat) : List Nat :=
  pack_cstr s

/-- Model of `wcslen` over a `wchar_t` sequence (each element one wide
character, numerically). -/
def wcslen (s : List Nat) : Nat :=
  (s.takeWhile (fun b => b ≠ 0)).length

/-- Model of `Packer::pack(const wchar_t* item)` for non-null `item`:
`pack((char*) item, wcslen(item) * sizeof(wchar_t))` — the native bytes of
the first `wcslen` wide characters (4 bytes each, little-endian). -/
def pack_wcstr (s : List Nat) : List Nat :=
  pack_raw ((s.take (wcslen s)).flatMap (leBytes 4))

/-- Model of `Packer::pack(const std::basic_string<wchar_t>&)`:
`pack(value.c_str())`. -/
def pack_wstring (s : List Nat) : List Nat :=
  pack_wcstr s

/-- Model of `Packer::initContainer(length, T&)` (the non-pair overload):
array header, fixarray / array16 / array32 smallest first. -/
def initContainerArray (length : Nat) : List Nat :=
  if (length : Int) ≤ bm.MAX_4BIT then
    [length ||| bm.MP_FIXARRAY]
  else if (length : Int) ≤ bm.MAX_16BIT then
    bm.MP_ARRAY16 :: writeBytes 2 length
  else
    bm.MP_ARRAY32 :: writeBytes 4 length

/-- Model of `Packer::initContainer(length, std::pair&)`: map header. -/
def initContainerMap (length : Nat) : List Nat :=
  if (length : Int) ≤ bm.MAX_4BIT then
    [length ||| bm.MP_FIXMAP]
  else if (length : Int) ≤ bm.MAX_16BIT then
    bm.MP_MAP16 :: writeBytes 2 length
  else
    bm.MP_MAP32 :: writeBytes 4 length

/-- Encodable input values: the types the `Packer` overload set accepts.
`float`/`double` carry the IEEE bit pattern of the value (the codec copies
the 4/8 payload bytes without numeric interpretation), `raw` a byte region
packed through `pack(const char*, std::size_t)`, `arr` an iterator range
packed element-wise, `mp` a map-like range packed pair-wise. -/
inductive MValue where
  | nil : MValue
  | bool (b : Bool) : MValue
  | int (v : Int) : MValue
  | float (bits : Nat) : MValue
  | double (bits : Nat) : MValue
  | raw (data : List Nat) : MValue
  | arr (elems : List MValue) : MValue
  | mp (pairs : List (MValue × MValue)) : MValue

mutual

/-- Model of the `Packer::pack` overload family, dispatched on the static
type of the argument: `pack(bool)`, `pack(long)`, `pack(float)`,
`pack(double)`, `pack(const char*, size_t)`, and the iterator-range `pack`
for sequences and maps (null pointers write `MP_NULL`). -/
def packValue : MValue → List Nat
  | .nil => [bm.MP_NULL]
  | .bool true => [bm.MP_TRUE]
  | .bool false => [bm.MP_FALSE]
  | .int v => pack_long v
  | .float bits => bm.MP_FLOAT :: leBytes 4 bits
  | .double bits => bm.MP_DOUBLE :: leBytes 8 bits
  | .raw data => pack_raw data
  | .arr es => initContainerArray es.length ++ packList es
  | .mp ps => initContainerMap ps.length ++ packPairs ps

/-- Elements of an iterator range, packed in iteration order. -/
def packList : List MValue → List Nat
  | [] => []
  | v :: t => packValue v ++ packList t

/-- Pairs of a map range: `pack(item.first).pack(item.second)` each. -/
def packPairs : List (MValue × MValue) → List Nat
  | [] => []
  | (k, v) :: t => packValue k ++ packValue v ++ packPairs t

end


/-- The `object_type` enum of the source: variant tags of decoded values. -/
inductive object_type where
  | NIL | BOOLEAN | CHAR | SHORT | INTEGER | LONG
  | UCHAR | USHORT | UINTEGER | ULONG | FLOAT | DOUBLE
  | RAW | ARRAY | MAP
deriving DecidableEq, Repr

/-- Decoded values: the `Object` class hierarchy (`detail::ObjectImpl<t>`).
Scalar variants hold the value the constructor copied; `raw` the owned byte
buffer; `arr` the `Object*` children in `add` order (a child may be a null
pointer, since `unpackList` stores whatever `unpack` returned); `mp` the
key/value `Object*` pairs in `insert` order. -/
inductive Obj where
  | nil : Obj
  | bool (b : Bool) : Obj
  | char (v : Int) : Obj
  | short (v : Int) : Obj
  | int (v : Int) : Obj
  | long (v : Int) : Obj
  | uchar (v : Nat) : Obj
  | ushort (v : Nat) : Obj
  | uint (v : Nat) : Obj
  | ulong (v : Nat) : Obj
  | float (bits : Nat) : Obj
  | double (bits : Nat) : Obj
  | raw (data : List Nat) : Obj
  | arr (elems : List (Option Obj)) : Obj
  | mp (pairs : List (Option Obj × Option Obj)) : Obj

/-- Model of `Object::getType()`: the `type_` member fixed at construction
by each `ObjectImpl<type>` instantiation. -/
def Obj.getType : Obj → object_type
  | .nil => .NIL
  | .bool _ => .BOOLEAN
  | .char _ => .CHAR
  | .short _ => .SHORT
  | .int _ => .INTEGER
  | .long _ => .LONG
  | .uchar _ => .UCHAR
  | .ushort _ => .USHORT
  | .uint _ => .UINTEGER
  | .ulong _ => .ULONG
  | .float _ => .FLOAT
  | .double _ => .DOUBLE
  | .raw _ => .RAW
  | .arr _ => .ARRAY
  | .mp _ => .MAP

/-- Model of `Object::getAs<type>()`: `if (type != type_) throw
std::bad_cast;` then `dynamic_cast` to the implementation object itself.
The thrown `std::bad_cast` is `Except.error ()`; returning the reference to
the very same object (no copy of the stored payload) is `Except.ok o`. -/
def Obj.getAs (type : object_type) (o : Obj) : Except Unit Obj :=
  if type ≠ o.getType then .error () else .ok o

/-- The requested C++ types for which `detail::type_cast` is specialised
(the `TYPE_CAST` table of the source). -/
inductive CType where
  | bool | char | int16 | int32 | int64
  | uchar | uint16 | uint32 | uint64
  | float | double
  | ucharPtr | ucharVector | string | wstring
  | objList | objMap
deriving DecidableEq, Repr

/-- Model of `detail::type_cast<T>::id`: the `object_type` each requested
type corresponds to. -/
def type_cast : CType → object_type
  | .bool => .BOOLEAN
  | .char => .CHAR
  | .int16 => .SHORT
  | .int32 => .INTEGER
  | .int64 => .LONG
  | .uchar => .UCHAR
  | .uint16 => .USHORT
  | .uint32 => .UINTEGER
  | .uint64 => .ULONG
  | .float => .FLOAT
  | .double => .DOUBLE
  | .ucharPtr => .RAW
  | .ucharVector => .RAW
  | .string => .RAW
  | .wstring => .RAW
  | .objList => .ARRAY
  | .objMap => .MAP

/-- The decoder's exception: `unpack_exception` (`std::ios_base::failure`),
thrown by `Unpacker::read` when the stream reaches EOF mid-read. -/
inductive StreamErr where
  | exhausted
deriving DecidableEq, Repr

/-- Result of a decode step: the exception or the returned `Object*`
(`none` = null pointer), together with the remaining input stream and the
allocation ledger (count of `new`-ed objects never `delete`-d). -/
abbrev URes := Except StreamErr (Option Obj) × List Nat × Nat

/-- Model of `Unpacker::read` reading `n` bytes (one `istream::read(buf, n)`
call, or equivalently `n` single-byte reads in `unpackRaw`'s loop): succeeds
exactly when `n` bytes remain, otherwise `eof()` is hit and
`unpack_exception` is thrown. -/
def readN (n : Nat) (s : List Nat) : Except StreamErr (List Nat × List Nat) :=
  if n ≤ s.length then .ok (s.take n, s.drop n) else .error .exhausted

/-- Model of `Unpacker::unpackRaw(int size)`: null for negative size, else
`new` the byte buffer (ledger +1), read `size` bytes into it one at a time,
then `new detail::Raw` (ledger +1).  If the loop hits EOF the exception
propagates and the buffer allocation stays on the ledger. -/
def Unpacker.unpackRaw (size : Int) (s : List Nat) (live : Nat) : URes :=
  if size < 0 then (.ok none, s, live)
  else
    match readN size.toNat s with
    | .ok (data, s1) => (.ok (some (.raw data)), s1, live + 2)
    | .error e => (.error e, s, live + 1)

/-- The `for` loop of `Unpacker::unpackList` after `new detail::Array()`:
`ret->add(unpack())` repeated `n` times, with `u` the recursive `unpack`
call.  An exception from `unpack` propagates; the `Array` and every child
already added stay on the ledger (nothing deletes them). -/
def Unpacker.listLoop (u : List Nat → Nat → URes) :
    Nat → List Nat → Nat → List (Option Obj) → URes
  | 0, s, live, acc => (.ok (some (.arr acc)), s, live)
  | n + 1, s, live, acc =>
    match u s live with
    | (.ok o, s1, l1) => Unpacker.listLoop u n s1 l1 (acc ++ [o])
    | (.error e, s1, l1) => (.error e, s1, l1)

/-- Model of `Unpacker::unpackList(int size)`: null for negative size, else
`new detail::Array()` (ledger +1) and the add loop. -/
def Unpacker.unpackList (u : List Nat → Nat → URes) (size : Int)
    (s : List Nat) (live : Nat) : URes :=
  if size < 0 then (.ok none, s, live)
  else Unpacker.listLoop u size.toNat s (live + 1) []

/-- The `for` loop of `Unpacker::unpackMap` after `new detail::Map()`:
`key = unpack(); val = unpack(); ret->insert(key, val)` repeated `n`
times. -/
def Unpacker.mapLoop (u : List Nat → Nat → URes) :
    Nat → List Nat → Nat → List (Option Obj × Option Obj) → URes
  | 0, s, live, acc => (.ok (some (.mp acc)), s, live)
  | n + 1, s, live, acc =>
    match u s live with
    | (.ok key, s1, l1) =>
      match u s1 l1 with
      | (.ok val, s2, l2) => Unpacker.mapLoop u n s2 l2 (acc ++ [(key, val)])
      | (.error e, s2, l2) => (.error e, s2, l2)
    | (.error e, s1, l1) => (.error e, s1, l1)

/-- Model of `Unpacker::unpackMap(int size)`. -/
def Unpacker.unpackMap (u : List Nat → Nat → URes) (size : Int)
    (s : List Nat) (live : Nat) : URes :=
  if size < 0 then (.ok none, s, live)
  else Unpacker.mapLoop u size.toNat s (live + 1) []

/-- Model of `Unpacker::unpack()`.  `junk` is the indeterminate initial
content of the uninitialised local `int iVal` (the `MP_INT32` case reads the
payload into `uiVal` but constructs `new Int(iVal)` — the source's bug is
modelled as-is).  `fuel` only bounds the recursion depth so the function is
total; every theorem below supplies fuel exceeding the stream length, and
since each recursion level first consumes at least one header byte, the
fuel-out branch is unreachable under those bounds.  The dispatch mirrors the
source: the `switch` on the fixed tags, then the masked fixraw / negative
fixnum / fixarray / fixmap ranges in order, then positive fixnum, and
finally `return 0` (a null pointer, `none`) for any other header. -/
def Unpacker.unpack : Nat → Int → List Nat → Nat → URes
  | 0, _, s, live => (.ok none, s, live)
  | fuel + 1, junk, s, live =>
    match s with
    | [] => (.error .exhausted, [], live)
    | b :: s1 =>
      if b = 0xc0 then (.ok (some .nil), s1, live + 1)
      else if b = 0xc2 then (.ok (some (.bool false)), s1, live + 1)
      else if b = 0xc3 then (.ok (some (.bool true)), s1, live + 1)
      else if b = 0xca then
        match readN 4 s1 with
        | .ok (bs, s2) => (.ok (some (.float (leVal bs))), s2, live + 1)
        | .error e => (.error e, s1, live)
      else if b = 0xcb then
        match readN 8 s1 with
        | .ok (bs, s2) => (.ok (some (.double (leVal bs))), s2, live + 1)
        | .error e => (.error e, s1, live)
      else if b = 0xcc then
        match readN 1 s1 with
        | .ok (bs, s2) => (.ok (some (.uchar (leVal bs))), s2, live + 1)
        | .error e => (.error e, s1, live)
      else if b = 0xcd then
        match readN 2 s1 with
        | .ok (bs, s2) => (.ok (some (.ushort (leVal bs))), s2, live + 1)
        | .error e => (.error e, s1, live)
      else if b = 0xce then
        match readN 4 s1 with
        | .ok (bs, s2) => (.ok (some (.uint (leVal bs))), s2, live + 1)
        | .error e => (.error e, s1, live)
      else if b = 0xcf then
        match readN 8 s1 with
        | .ok (bs, s2) => (.ok (some (.ulong (leVal bs))), s2, live + 1)
        | .error e => (.error e, s1, live)
      else if b = 0xd0 then
        match readN 1 s1 with
        | .ok (bs, s2) => (.ok (some (.char (toSigned 8 (leVal bs)))), s2, live + 1)
        | .error e => (.error e, s1, live)
      else if b = 0xd1 then
        match readN 2 s1 with
        | .ok (bs, s2) => (.ok (some (.short (toSigned 16 (leVal bs)))), s2, live + 1)
        | .error e => (.error e, s1, live)
      else if b = 0xd2 then
        -- source: `read(uiVal); return new Int(iVal);` — the 4 payload
        -- bytes go into uiVal, the constructed value is uninitialised iVal
        match readN 4 s1 with
        | .ok (_, s2) => (.ok (some (.int junk)), s2, live + 1)
        | .error e => (.error e, s1, live)
      else if b = 0xd3 then
        match readN 8 s1 with
        | .ok (bs, s2) => (.ok (some (.long (toSigned 64 (leVal bs)))), s2, live + 1)
        | .error e => (.error e, s1, live)
      else if b = 0xdc then
        -- read(sVal): signed short count
        match readN 2 s1 with
        | .ok (bs, s2) => Unpacker.unpackList (Unpacker.unpack fuel junk) (toSigned 16 (leVal bs)) s2 live
        | .error e => (.error e, s1, live)
      else if b = 0xdd then
        -- read(iVal): signed int count
        match readN 4 s1 with
        | .ok (bs, s2) => Unpacker.unpackList (Unpacker.unpack fuel junk) (toSigned 32 (leVal bs)) s2 live
        | .error e => (.error e, s1, live)
      else if b = 0xde then
        match readN 2 s1 with
        | .ok (bs, s2) => Unpacker.unpackMap (Unpacker.unpack fuel junk) (toSigned 16 (leVal bs)) s2 live
        | .error e => (.error e, s1, live)
      else if b = 0xdf then
        match readN 4 s1 with
        | .ok (bs, s2) => Unpacker.unpackMap (Unpacker.unpack fuel junk) (toSigned 32 (leVal bs)) s2 live
        | .error e => (.error e, s1, live)
      else if b = 0xda then
        -- read(usVal): unsigned short length
        match readN 2 s1 with
        | .ok (bs, s2) => Unpacker.unpackRaw ((leVal bs : Nat) : Int) s2 live
        | .error e => (.error e, s1, live)
      else if b = 0xdb then
        -- read(iVal): signed int length
        match readN 4 s1 with
        | .ok (bs, s2) => Unpacker.unpackRaw (toSigned 32 (leVal bs)) s2 live
        | .error e => (.error e, s1, live)
      else if b &&& 0xe0 = 0xa0 then
        Unpacker.unpackRaw ((b : Int) - 0xa0) s1 live
      else if b &&& 0xe0 = 0xe0 then
        (.ok (some (.int (((b &&& 0x1f : Nat) : Int) - 32))), s1, live + 1)
      else if b &&& 0xf0 = 0x90 then
        Unpacker.unpackList (Unpacker.unpack fuel junk) ((b : Int) - 0x90) s1 live
      else if b &&& 0xf0 = 0x80 then
        Unpacker.unpackMap (Unpacker.unpack fuel junk) ((b : Int) - 0x80) s1 live
      else if b ≤ 127 then
        (.ok (some (.char (b : Int))), s1, live + 1)
      else
        (.ok none, s1, live)


mutual

/-- The `Object` tree `Unpacker::unpack` builds from `packValue v` (`junk`
is the indeterminate value of the uninitialised `iVal` local used by the
`MP_INT32` case).  The branch structure follows `pack_long`'s width
selection. -/
def decObj (junk : Int) : MValue → Obj
  | .nil => .nil
  | .bool b => .bool b
  | .int v =>
    if 0 ≤ v then
      if v ≤ bm.MAX_7BIT then .char v
      else if v ≤ bm.MAX_8BIT then .uchar v.toNat
      else if v ≤ bm.MAX_16BIT then .ushort v.toNat
      else if v ≤ bm.MAX_32BIT then .uint v.toNat
      else .ulong (toUns 64 v)
    else
      if -(bm.MAX_5BIT + 1) ≤ v then .int v
      else if -(bm.MAX_7BIT + 1) ≤ v then .char v
      else if -(bm.MAX_15BIT + 1) ≤ v then .short v
      else if -(bm.MAX_31BIT + 1) ≤ v then .int junk
      else .long (toSigned 64 (toUns 64 v))
  | .float bits => .float (bits % 2 ^ 32)
  | .double bits => .double (bits % 2 ^ 64)
  | .raw data => .raw data
  | .arr es => .arr (decObjL junk es)
  | .mp ps => .mp (decObjP junk ps)

/-- Children of a decoded array, in decode order. -/
def decObjL (junk : Int) : List MValue → List (Option Obj)
  | [] => []
  | v :: t => some (decObj junk v) :: decObjL junk t

/-- Pairs of a decoded map, in decode order. -/
def decObjP (junk : Int) : List (MValue × MValue) → List (Option Obj × Option Obj)
  | [] => []
  | (k, v) :: t => (some (decObj junk k), some (decObj junk v)) :: decObjP junk t

end

mutual

/-- Number of `new` allocations `Unpacker::unpack` performs while decoding
`packValue v`: one per scalar/container `Object`, plus one for the byte
buffer of each raw. -/
def allocCount : MValue → Nat
  | .nil => 1
  | .bool _ => 1
  | .int _ => 1
  | .float _ => 1
  | .double _ => 1
  | .raw _ => 2
  | .arr es => 1 + allocCountL es
  | .mp ps => 1 + allocCountP ps

/-- Allocations for a list of array children. -/
def allocCountL : List MValue → Nat
  | [] => 0
  | v :: t => allocCount v + allocCountL t

/-- Allocations for the pairs of a map. -/
def allocCountP : List (MValue × MValue) → Nat
  | [] => 0
  | (k, v) :: t => allocCount k + allocCount v + allocCountP t

end

/-- Container counts the decoder survives: the 16-bit tier count field is
read back through a signed `short`, so counts in `[0x8000, 0xffff]` come
back negative; only counts at most `0x7fff` or in the 32-bit tier (below
`2^31`) decode. -/
def lenOk (n : Nat) : Bool :=
  decide (n ≤ 0x7fff) || (decide (0xffff < n) && decide (n < 0x80000000))

mutual

/-- The values on which the decoder never misreads a size field: every raw
byte-buffer is shorter than `2^31` (the raw32 length is read back through a
signed `int`) and every array/map count passes `lenOk` (the 16-bit count is
read back through a signed `short`, the 32-bit count through a signed
`int`).  Scalars are unconstrained. -/
def MValue.wfb : MValue → Bool
  | .nil => true
  | .bool _ => true
  | .int _ => true
  | .float _ => true
  | .double _ => true
  | .raw data => decide (data.length < 2 ^ 31)
  | .arr es => lenOk es.length && MValue.wfbL es
  | .mp ps => lenOk ps.length && MValue.wfbP ps

/-- Well-formedness of array children. -/
def MValue.wfbL : List MValue → Bool
  | [] => true
  | v :: t => v.wfb && MValue.wfbL t

/-- Well-formedness of map pairs. -/
def MValue.wfbP : List (MValue × MValue) → Bool
  | [] => true
  | (k, v) :: t => k.wfb && v.wfb && MValue.wfbP t

end

theorem leBytes_length (w : Nat) : ∀ n, (leBytes w n).length = w := by
  induction w with
  | zero => intro n; rfl
  | succ w ih => intro n; simp [leBytes, ih]

theorem writeBytes_length (size : Nat) (v : Int) : (writeBytes size v).length = size := by
  simp [writeBytes, leBytes_length]

theorem leVal_leBytes (w : Nat) : ∀ n, leVal (leBytes w n) = n % 2 ^ (8 * w) := by
  induction w with
  | zero => intro n; simp [leBytes, leVal, Nat.mod_one]
  | succ w ih =>
    intro n
    have hpow : 2 ^ (8 * (w + 1)) = 256 * 2 ^ (8 * w) := by
      rw [show 8 * (w + 1) = 8 + 8 * w by ring, pow_add]
      norm_num
    rw [hpow, Nat.mod_mul]
    simp [leBytes, leVal, ih]

theorem leVal_leBytes_of_lt {w n : Nat} (h : n < 2 ^ (8 * w)) :
    leVal (leBytes w n) = n := by
  rw [leVal_leBytes, Nat.mod_eq_of_lt h]

theorem toUns_lt (w : Nat) (v : Int) : toUns w v < 2 ^ w := by
  have h0 : (0 : Int) < 2 ^ w := by positivity
  have h1 := Int.emod_nonneg v (ne_of_gt h0)
  have h2 := Int.emod_lt_of_pos v h0
  have hc : ((2 : Int) ^ w) = ((2 ^ w : Nat) : Int) := by push_cast; ring
  unfold toUns
  omega

theorem toUns_of_nonneg {w : Nat} {v : Int} (h0 : 0 ≤ v) (h : v < 2 ^ w) :
    toUns w v = v.toNat := by
  unfold toUns
  rw [Int.emod_eq_of_lt h0 (by exact_mod_cast h)]

theorem toUns_cast_of_nonneg {w : Nat} {v : Int} (h0 : 0 ≤ v) (h : v < 2 ^ w) :
    ((toUns w v : Nat) : Int) = v := by
  rw [toUns_of_nonneg h0 h, Int.toNat_of_nonneg h0]

theorem toUns_cast_of_neg {w : Nat} {v : Int} (h0 : -(2 ^ w) ≤ v) (h : v < 0) :
    ((toUns w v : Nat) : Int) = v + 2 ^ w := by
  have h0' : (0 : Int) < 2 ^ w := by positivity
  have key : v % (2 : Int) ^ w = v + 2 ^ w := by
    rw [show v + (2 : Int) ^ w = v + 2 ^ w * 1 by ring] at *
    rw [← Int.add_mul_emod_self_left (a := v) (b := (2 : Int) ^ w) (c := 1)]
    exact Int.emod_eq_of_lt (by omega) (by omega)
  unfold toUns
  rw [key, Int.toNat_of_nonneg (by omega)]

theorem toSigned_of_lt {w n : Nat} (h : n < 2 ^ (w - 1)) (hw : 1 ≤ w) :
    toSigned w n = (n : Int) := by
  have hle : 2 ^ (w - 1) ≤ 2 ^ w := Nat.pow_le_pow_right (by omega) (by omega)
  have hn : n % 2 ^ w = n := Nat.mod_eq_of_lt (by omega)
  unfold toSigned
  rw [hn, if_pos h]

theorem toSigned_of_ge {w n : Nat} (h1 : 2 ^ (w - 1) ≤ n) (h2 : n < 2 ^ w) :
    toSigned w n = (n : Int) - 2 ^ w := by
  have hn : n % 2 ^ w = n := Nat.mod_eq_of_lt h2
  unfold toSigned
  rw [hn, if_neg (by omega)]

theorem toSigned_toUns {w : Nat} {v : Int} (hw : 1 ≤ w)
    (h1 : -(2 ^ (w - 1)) ≤ v) (h2 : v < 2 ^ (w - 1)) :
    toSigned w (toUns w v) = v := by
  have hsplit : (2 : Int) ^ w = 2 ^ (w - 1) * 2 := by
    rw [← pow_succ]
    congr 1
    omega
  have hsplitN : (2 : Nat) ^ w = 2 ^ (w - 1) * 2 := by
    rw [← pow_succ]
    congr 1
    omega
  rcases le_or_lt 0 v with hv | hv
  · have hlt : v < 2 ^ w := by
      have : ((2 : Int) ^ (w - 1)) ≤ 2 ^ w := by
        exact_mod_cast Nat.pow_le_pow_right (by omega) (by omega)
      omega
    have he := toUns_cast_of_nonneg hv hlt
    have hlt2 : toUns w v < 2 ^ (w - 1) := by
      have hc : ((2 : Int) ^ (w - 1)) = ((2 ^ (w - 1) : Nat) : Int) := by push_cast; ring
      omega
    rw [toSigned_of_lt hlt2 hw]
    omega
  · have hge : -(2 ^ w) ≤ v := by
      have : (0 : Int) ≤ 2 ^ (w - 1) := by positivity
      omega
    have he := toUns_cast_of_neg hge hv
    have hup : toUns w v < 2 ^ w := toUns_lt w v
    have hc : ((2 : Int) ^ w) = ((2 ^ w : Nat) : Int) := by push_cast; ring
    have hc1 : ((2 : Int) ^ (w - 1)) = ((2 ^ (w - 1) : Nat) : Int) := by push_cast; ring
    have hlo : 2 ^ (w - 1) ≤ toUns w v := by omega
    rw [toSigned_of_ge hlo hup]
    omega

theorem readN_exact {n : Nat} (xs rest : List Nat) (h : xs.length = n) :
    readN n (xs ++ rest) = .ok (xs, rest) := by
  subst h
  rw [readN, if_pos (by simp)]
  simp

theorem readN_short {n : Nat} {s : List Nat} (h : s.length < n) :
    readN n s = .error .exhausted := by
  rw [readN, if_neg (by omega)]

theorem unpack_empty (fuel : Nat) (junk : Int) (live : Nat) :
    Unpacker.unpack (fuel + 1) junk [] live = (.error .exhausted, [], live) := rfl

theorem unpack_nil_tag (fuel : Nat) (junk : Int) (s : List Nat) (live : Nat) :
    Unpacker.unpack (fuel + 1) junk (bm.MP_NULL :: s) live
      = (.ok (some .nil), s, live + 1) := rfl

theorem unpack_false_tag (fuel : Nat) (junk : Int) (s : List Nat) (live : Nat) :
    Unpacker.unpack (fuel + 1) junk (bm.MP_FALSE :: s) live
      = (.ok (some (.bool false)), s, live + 1) := rfl

theorem unpack_true_tag (fuel : Nat) (junk : Int) (s : List Nat) (live : Nat) :
    Unpacker.unpack (fuel + 1) junk (bm.MP_TRUE :: s) live
      = (.ok (some (.bool true)), s, live + 1) := rfl

theorem unpack_float_tag (fuel : Nat) (junk : Int) (s : List Nat) (live : Nat) :
    Unpacker.unpack (fuel + 1) junk (bm.MP_FLOAT :: s) live
      = match readN 4 s with
        | .ok (bs, s2) => (.ok (some (.float (leVal bs))), s2, live + 1)
        | .error e => (.error e, s, live) := rfl

theorem unpack_double_tag (fuel : Nat) (junk : Int) (s : List Nat) (live : Nat) :
    Unpacker.unpack (fuel + 1) junk (bm.MP_DOUBLE :: s) live
      = match readN 8 s with
        | .ok (bs, s2) => (.ok (some (.double (leVal bs))), s2, live + 1)
        | .error e => (.error e, s, live) := rfl

theorem unpack_uint8_tag (fuel : Nat) (junk : Int) (s : List Nat) (live : Nat) :
    Unpacker.unpack (fuel + 1) junk (bm.MP_UINT8 :: s) live
      = match readN 1 s with
        | .ok (bs, s2) => (.ok (some (.uchar (leVal bs))), s2, live + 1)
        | .error e => (.error e, s, live) := rfl

theorem unpack_uint16_tag (fuel : Nat) (junk : Int) (s : List Nat) (live : Nat) :
    Unpacker.unpack (fuel + 1) junk (bm.MP_UINT16 :: s) live
      = match readN 2 s with
        | .ok (bs, s2) => (.ok (some (.ushort (leVal bs))), s2, live + 1)
        | .error e => (.error e, s, live) := rfl

theorem unpack_uint32_tag (fuel : Nat) (junk : Int) (s : List Nat) (live : Nat) :
    Unpacker.unpack (fuel + 1) junk (bm.MP_UINT32 :: s) live
      = match readN 4 s with
        | .ok (bs, s2) => (.ok (some (.uint (leVal bs))), s2, live + 1)
        | .error e => (.error e, s, live) := rfl

theorem unpack_uint64_tag (fuel : Nat) (junk : Int) (s : List Nat) (live : Nat) :
    Unpacker.unpack (fuel + 1) junk (bm.MP_UINT64 :: s) live
      = match readN 8 s with
        | .ok (bs, s2) => (.ok (some (.ulong (leVal bs))), s2, live + 1)
        | .error e => (.error e, s, live) := rfl

theorem unpack_int8_tag (fuel : Nat) (junk : Int) (s : List Nat) (live : Nat) :
    Unpacker.unpack (fuel + 1) junk (bm.MP_INT8 :: s) live
      = match readN 1 s with
        | .ok (bs, s2) => (.ok (some (.char (toSigned 8 (leVal bs)))), s2, live + 1)
        | .error e => (.error e, s, live) := rfl

theorem unpack_int16_tag (fuel : Nat) (junk : Int) (s : List Nat) (live : Nat) :
    Unpacker.unpack (fuel + 1) junk (bm.MP_INT16 :: s) live
      = match readN 2 s with
        | .ok (bs, s2) => (.ok (some (.short (toSigned 16 (leVal bs)))), s2, live + 1)
        | .error e => (.error e, s, live) := rfl

theorem unpack_int32_tag (fuel : Nat) (junk : Int) (s : List Nat) (live : Nat) :
    Unpacker.unpack (fuel + 1) junk (bm.MP_INT32 :: s) live
      = match readN 4 s with
        | .ok (_, s2) => (.ok (some (.int junk)), s2, live + 1)
        | .error e => (.error e, s, live) := rfl

theorem unpack_int64_tag (fuel : Nat) (junk : Int) (s : List Nat) (live : Nat) :
    Unpacker.unpack (fuel + 1) junk (bm.MP_INT64 :: s) live
      = match readN 8 s with
        | .ok (bs, s2) => (.ok (some (.long (toSigned 64 (leVal bs)))), s2, live + 1)
        | .error e => (.error e, s, live) := rfl

theorem unpack_array16_tag (fuel : Nat) (junk : Int) (s : List Nat) (live : Nat) :
    Unpacker.unpack (fuel + 1) junk (bm.MP_ARRAY16 :: s) live
      = match readN 2 s with
        | .ok (bs, s2) =>
          Unpacker.unpackList (Unpacker.unpack fuel junk) (toSigned 16 (leVal bs)) s2 live
        | .error e => (.error e, s, live) := rfl

theorem unpack_array32_tag (fuel : Nat) (junk : Int) (s : List Nat) (live : Nat) :
    Unpacker.unpack (fuel + 1) junk (bm.MP_ARRAY32 :: s) live
      = match readN 4 s with
        | .ok (bs, s2) =>
          Unpacker.unpackList (Unpacker.unpack fuel junk) (toSigned 32 (leVal bs)) s2 live
        | .error e => (.error e, s, live) := rfl

theorem unpack_map16_tag (fuel : Nat) (junk : Int) (s : List Nat) (live : Nat) :
    Unpacker.unpack (fuel + 1) junk (bm.MP_MAP16 :: s) live
      = match readN 2 s with
        | .ok (bs, s2) =>
          Unpacker.unpackMap (Unpacker.unpack fuel junk) (toSigned 16 (leVal bs)) s2 live
        | .error e => (.error e, s, live) := rfl

theorem unpack_map32_tag (fuel : Nat) (junk : Int) (s : List Nat) (live : Nat) :
    Unpacker.unpack (fuel + 1) junk (bm.MP_MAP32 :: s) live
      = match readN 4 s with
        | .ok (bs, s2) =>
          Unpacker.unpackMap (Unpacker.unpack fuel junk) (toSigned 32 (leVal bs)) s2 live
        | .error e => (.error e, s, live) := rfl

theorem unpack_raw16_tag (fuel : Nat) (junk : Int) (s : List Nat) (live : Nat) :
    Unpacker.unpack (fuel + 1) junk (bm.MP_RAW16 :: s) live
      = match readN 2 s with
        | .ok (bs, s2) => Unpacker.unpackRaw ((leVal bs : Nat) : Int) s2 live
        | .error e => (.error e, s, live) := rfl

theorem unpack_raw32_tag (fuel : Nat) (junk : Int) (s : List Nat) (live : Nat) :
    Unpacker.unpack (fuel + 1) junk (bm.MP_RAW32 :: s) live
      = match readN 4 s with
        | .ok (bs, s2) => Unpacker.unpackRaw (toSigned 32 (leVal bs)) s2 live
        | .error e => (.error e, s, live) := rfl

theorem unpack_fixraw_tag (n : Nat) (hn : n ≤ 31) (fuel : Nat) (junk : Int)
    (s : List Nat) (live : Nat) :
    Unpacker.unpack (fuel + 1) junk ((n ||| bm.MP_FIXRAW) :: s) live
      = Unpacker.unpackRaw ((n : Nat) : Int) s live := by
  interval_cases n <;> rfl

theorem unpack_negfixnum (b : Nat) (h1 : 0xe0 ≤ b) (h2 : b ≤ 0xff) (fuel : Nat)
    (junk : Int) (s : List Nat) (live : Nat) :
    Unpacker.unpack (fuel + 1) junk (b :: s) live
      = (.ok (some (.int ((b : Int) - 256))), s, live + 1) := by
  interval_cases b <;> rfl

theorem unpack_fixarray_tag (n : Nat) (hn : n ≤ 15) (fuel : Nat) (junk : Int)
    (s : List Nat) (live : Nat) :
    Unpacker.unpack (fuel + 1) junk ((n ||| bm.MP_FIXARRAY) :: s) live
      = Unpacker.unpackList (Unpacker.unpack fuel junk) ((n : Nat) : Int) s live := by
  interval_cases n <;> rfl

theorem unpack_fixmap_tag (n : Nat) (hn : n ≤ 15) (fuel : Nat) (junk : Int)
    (s : List Nat) (live : Nat) :
    Unpacker.unpack (fuel + 1) junk ((n ||| bm.MP_FIXMAP) :: s) live
      = Unpacker.unpackMap (Unpacker.unpack fuel junk) ((n : Nat) : Int) s live := by
  interval_cases n <;> simp only [Unpacker.unpack] <;> rfl

theorem unpack_posfixnum (b : Nat) (hb : b ≤ 127) (fuel : Nat) (junk : Int)
    (s : List Nat) (live : Nat) :
    Unpacker.unpack (fuel + 1) junk (b :: s) live
      = (.ok (some (.char (b : Int))), s, live + 1) := by
  interval_cases b <;> simp only [Unpacker.unpack] <;> rfl


theorem leVal_writeBytes (size : Nat) (v : Int) :
    leVal (writeBytes size v) = toUns (8 * size) v := by
  rw [writeBytes, leVal_leBytes_of_lt (toUns_lt _ v)]

theorem toUns8_neg_or (v : Int) (h1 : -32 ≤ v) (h2 : v < 0) :
    toUns 8 v ||| bm.MP_NEGATIVE_FIXNUM = toUns 8 v := by
  interval_cases v <;> decide

theorem wfbL_mem {es : List MValue} (h : MValue.wfbL es = true) :
    ∀ e ∈ es, e.wfb = true := by
  induction es with
  | nil => intro e he; cases he
  | cons a t ih =>
    intro e he
    simp only [MValue.wfbL, Bool.and_eq_true] at h
    rw [List.mem_cons] at he
    rcases he with rfl | he
    · exact h.1
    · exact ih h.2 e he

theorem wfbP_mem {ps : List (MValue × MValue)} (h : MValue.wfbP ps = true) :
    ∀ p ∈ ps, p.1.wfb = true ∧ p.2.wfb = true := by
  induction ps with
  | nil => intro p hp; cases hp
  | cons a t ih =>
    intro p hp
    obtain ⟨k, v⟩ := a
    simp only [MValue.wfbP, Bool.and_eq_true] at h
    rw [List.mem_cons] at hp
    rcases hp with rfl | hp
    · exact ⟨h.1.1, h.1.2⟩
    · exact ih h.2 p hp

theorem packList_length_cons (e : MValue) (t : List MValue) :
    (packList (e :: t)).length = (packValue e).length + (packList t).length := by
  simp [packList]

theorem packPairs_length_cons (k v : MValue) (t : List (MValue × MValue)) :
    (packPairs ((k, v) :: t)).length
      = (packValue k).length + (packValue v).length + (packPairs t).length := by
  simp [packPairs, Nat.add_assoc]

theorem listLoop_step (u : List Nat → Nat → URes) (n : Nat) (s : List Nat) (live : Nat)
    (acc : List (Option Obj)) (o : Option Obj) (s1 : List Nat) (l1 : Nat)
    (h : u s live = (.ok o, s1, l1)) :
    Unpacker.listLoop u (n + 1) s live acc = Unpacker.listLoop u n s1 l1 (acc ++ [o]) := by
  rw [Unpacker.listLoop, h]

theorem listLoop_step_err (u : List Nat → Nat → URes) (n : Nat) (s : List Nat) (live : Nat)
    (acc : List (Option Obj)) (e : StreamErr) (s1 : List Nat) (l1 : Nat)
    (h : u s live = (.error e, s1, l1)) :
    Unpacker.listLoop u (n + 1) s live acc = (.error e, s1, l1) := by
  rw [Unpacker.listLoop, h]

theorem mapLoop_step (u : List Nat → Nat → URes) (n : Nat) (s : List Nat) (live : Nat)
    (acc : List (Option Obj × Option Obj)) (k v : Option Obj) (s1 s2 : List Nat) (l1 l2 : Nat)
    (hk : u s live = (.ok k, s1, l1)) (hv : u s1 l1 = (.ok v, s2, l2)) :
    Unpacker.mapLoop u (n + 1) s live acc = Unpacker.mapLoop u n s2 l2 (acc ++ [(k, v)]) := by
  rw [Unpacker.mapLoop, hk]
  show (match u s1 l1 with
    | (.ok val, s2, l2) => Unpacker.mapLoop u n s2 l2 (acc ++ [(k, val)])
    | (.error e, s2, l2) => (.error e, s2, l2)) = _
  rw [hv]

theorem mapLoop_step_err1 (u : List Nat → Nat → URes) (n : Nat) (s : List Nat) (live : Nat)
    (acc : List (Option Obj × Option Obj)) (e : StreamErr) (s1 : List Nat) (l1 : Nat)
    (h : u s live = (.error e, s1, l1)) :
    Unpacker.mapLoop u (n + 1) s live acc = (.error e, s1, l1) := by
  rw [Unpacker.mapLoop, h]

theorem mapLoop_step_err2 (u : List Nat → Nat → URes) (n : Nat) (s : List Nat) (live : Nat)
    (acc : List (Option Obj × Option Obj)) (k : Option Obj) (s1 : List Nat) (l1 : Nat)
    (e : StreamErr) (s2 : List Nat) (l2 : Nat)
    (hk : u s live = (.ok k, s1, l1)) (hv : u s1 l1 = (.error e, s2, l2)) :
    Unpacker.mapLoop u (n + 1) s live acc = (.error e, s2, l2) := by
  rw [Unpacker.mapLoop, hk]
  show (match u s1 l1 with
    | (.ok val, s2, l2) => Unpacker.mapLoop u n s2 l2 (acc ++ [(k, val)])
    | (.error e, s2, l2) => (.error e, s2, l2)) = _
  rw [hv]

theorem listLoop_pack (junk : Int) (es : List MValue)
    (IH : ∀ e ∈ es, ∀ fuel rest live, (packValue e).length < fuel →
      Unpacker.unpack fuel junk (packValue e ++ rest) live
        = (.ok (some (decObj junk e)), rest, live + allocCount e)) :
    ∀ fuel rest live acc, (packList es).length < fuel →
      Unpacker.listLoop (Unpacker.unpack fuel junk) es.length (packList es ++ rest) live acc
        = (.ok (some (.arr (acc ++ decObjL junk es))), rest, live + allocCountL es) := by
  induction es with
  | nil =>
    intro fuel rest live acc h
    simp [packList, Unpacker.listLoop, decObjL, allocCountL]
  | cons e t ih =>
    intro fuel rest live acc h
    rw [packList_length_cons] at h
    have h1 := IH e (by simp) fuel (packList t ++ rest) live (by omega)
    have hstream : packList (e :: t) ++ rest = packValue e ++ (packList t ++ rest) := by
      simp [packList]
    rw [hstream, List.length_cons,
      listLoop_step _ _ _ _ _ _ _ _ h1,
      ih (fun x hx => IH x (by simp [hx])) fuel rest (live + allocCount e)
        (acc ++ [some (decObj junk e)]) (by omega)]
    simp [decObjL, allocCountL, Nat.add_assoc]

theorem mapLoop_pack (junk : Int) (ps : List (MValue × MValue))
    (IH : ∀ p ∈ ps, ∀ fuel rest live, ((packValue p.1).length < fuel →
      Unpacker.unpack fuel junk (packValue p.1 ++ rest) live
        = (.ok (some (decObj junk p.1)), rest, live + allocCount p.1)) ∧
      ((packValue p.2).length < fuel →
      Unpacker.unpack fuel junk (packValue p.2 ++ rest) live
        = (.ok (some (decObj junk p.2)), rest, live + allocCount p.2))) :
    ∀ fuel rest live acc, (packPairs ps).length < fuel →
      Unpacker.mapLoop (Unpacker.unpack fuel junk) ps.length (packPairs ps ++ rest) live acc
        = (.ok (some (.mp (acc ++ decObjP junk ps))), rest, live + allocCountP ps) := by
  induction ps with
  | nil =>
    intro fuel rest live acc h
    simp [packPairs, Unpacker.mapLoop, decObjP, allocCountP]
  | cons p t ih =>
    obtain ⟨k, v⟩ := p
    intro fuel rest live acc h
    rw [packPairs_length_cons] at h
    have hIH := IH (k, v) (by simp)
    dsimp only at hIH
    have hk := (hIH fuel (packValue v ++ (packPairs t ++ rest)) live).1 (by omega)
    have hv := (hIH fuel (packPairs t ++ rest) (live + allocCount k)).2 (by omega)
    have hstream : packPairs ((k, v) :: t) ++ rest
        = packValue k ++ (packValue v ++ (packPairs t ++ rest)) := by
      simp [packPairs]
    rw [hstream, List.length_cons,
      mapLoop_step _ _ _ _ _ _ _ _ _ _ _ hk hv,
      ih (fun x hx => IH x (by simp [hx])) fuel rest (live + allocCount k + allocCount v)
        (acc ++ [(some (decObj junk k), some (decObj junk v))]) (by omega)]
    simp [decObjP, allocCountP, Nat.add_assoc]

theorem unpack_float_payload (fuel : Nat) (junk : Int) (live : Nat)
    (bs rest : List Nat) (h : bs.length = 4) :
    Unpacker.unpack (fuel + 1) junk (bm.MP_FLOAT :: (bs ++ rest)) live
      = (.ok (some (.float (leVal bs))), rest, live + 1) := by
  rw [unpack_float_tag, readN_exact _ _ h]

theorem unpack_float_short (fuel : Nat) (junk : Int) (live : Nat)
    (s : List Nat) (h : s.length < 4) :
    Unpacker.unpack (fuel + 1) junk (bm.MP_FLOAT :: s) live
      = (.error .exhausted, s, live) := by
  rw [unpack_float_tag, readN_short h]

theorem unpack_double_payload (fuel : Nat) (junk : Int) (live : Nat)
    (bs rest : List Nat) (h : bs.length = 8) :
    Unpacker.unpack (fuel + 1) junk (bm.MP_DOUBLE :: (bs ++ rest)) live
      = (.ok (some (.double (leVal bs))), rest, live + 1) := by
  rw [unpack_double_tag, readN_exact _ _ h]

theorem unpack_double_short (fuel : Nat) (junk : Int) (live : Nat)
    (s : List Nat) (h : s.length < 8) :
    Unpacker.unpack (fuel + 1) junk (bm.MP_DOUBLE :: s) live
      = (.error .exhausted, s, live) := by
  rw [unpack_double_tag, readN_short h]

theorem unpack_uint8_payload (fuel : Nat) (junk : Int) (live : Nat)
    (bs rest : List Nat) (h : bs.length = 1) :
    Unpacker.unpack (fuel + 1) junk (bm.MP_UINT8 :: (bs ++ rest)) live
      = (.ok (some (.uchar (leVal bs))), rest, live + 1) := by
  rw [unpack_uint8_tag, readN_exact _ _ h]

theorem unpack_uint8_short (fuel : Nat) (junk : Int) (live : Nat)
    (s : List Nat) (h : s.length < 1) :
    Unpacker.unpack (fuel + 1) junk (bm.MP_UINT8 :: s) live
      = (.error .exhausted, s, live) := by
  rw [unpack_uint8_tag, readN_short h]

theorem unpack_uint16_payload (fuel : Nat) (junk : Int) (live : Nat)
    (bs rest : List Nat) (h : bs.length = 2) :
    Unpacker.unpack (fuel + 1) junk (bm.MP_UINT16 :: (bs ++ rest)) live
      = (.ok (some (.ushort (leVal bs))), rest, live + 1) := by
  rw [unpack_uint16_tag, readN_exact _ _ h]

theorem unpack_uint16_short (fuel : Nat) (junk : Int) (live : Nat)
    (s : List Nat) (h : s.length < 2) :
    Unpacker.unpack (fuel + 1) junk (bm.MP_UINT16 :: s) live
      = (.error .exhausted, s, live) := by
  rw [unpack_uint16_tag, readN_short h]

theorem unpack_uint32_payload (fuel : Nat) (junk : Int) (live : Nat)
    (bs rest : List Nat) (h : bs.length = 4) :
    Unpacker.unpack (fuel + 1) junk (bm.MP_UINT32 :: (bs ++ rest)) live
      = (.ok (some (.uint (leVal bs))), rest, live + 1) := by
  rw [unpack_uint32_tag, readN_exact _ _ h]

theorem unpack_uint32_short (fuel : Nat) (junk : Int) (live : Nat)
    (s : List Nat) (h : s.length < 4) :
    Unpacker.unpack (fuel + 1) junk (bm.MP_UINT32 :: s) live
      = (.error .exhausted, s, live) := by
  rw [unpack_uint32_tag, readN_short h]

theorem unpack_uint64_payload (fuel : Nat) (junk : Int) (live : Nat)
    (bs rest : List Nat) (h : bs.length = 8) :
    Unpacker.unpack (fuel + 1) junk (bm.MP_UINT64 :: (bs ++ rest)) live
      = (.ok (some (.ulong (leVal bs))), rest, live + 1) := by
  rw [unpack_uint64_tag, readN_exact _ _ h]

theorem unpack_uint64_short (fuel : Nat) (junk : Int) (live : Nat)
    (s : List Nat) (h : s.length < 8) :
    Unpacker.unpack (fuel + 1) junk (bm.MP_UINT64 :: s) live
      = (.error .exhausted, s, live) := by
  rw [unpack_uint64_tag, readN_short h]

theorem unpack_int8_payload (fuel : Nat) (junk : Int) (live : Nat)
    (bs rest : List Nat) (h : bs.length = 1) :
    Unpacker.unpack (fuel + 1) junk (bm.MP_INT8 :: (bs ++ rest)) live
      = (.ok (some (.char (toSigned 8 (leVal bs)))), rest, live + 1) := by
  rw [unpack_int8_tag, readN_exact _ _ h]

theorem unpack_int8_short (fuel : Nat) (junk : Int) (live : Nat)
    (s : List Nat) (h : s.length < 1) :
    Unpacker.unpack (fuel + 1) junk (bm.MP_INT8 :: s) live
      = (.error .exhausted, s, live) := by
  rw [unpack_int8_tag, readN_short h]

theorem unpack_int16_payload (fuel : Nat) (junk : Int) (live : Nat)
    (bs rest : List Nat) (h : bs.length = 2) :
    Unpacker.unpack (fuel + 1) junk (bm.MP_INT16 :: (bs ++ rest)) live
      = (.ok (some (.short (toSigned 16 (leVal bs)))), rest, live + 1) := by
  rw [unpack_int16_tag, readN_exact _ _ h]

theorem unpack_int16_short (fuel : Nat) (junk : Int) (live : Nat)
    (s : List Nat) (h : s.length < 2) :
    Unpacker.unpack (fuel + 1) junk (bm.MP_INT16 :: s) live
      = (.error .exhausted, s, live) := by
  rw [unpack_int16_tag, readN_short h]

theorem unpack_int32_payload (fuel : Nat) (junk : Int) (live : Nat)
    (bs rest : List Nat) (h : bs.length = 4) :
    Unpacker.unpack (fuel + 1) junk (bm.MP_INT32 :: (bs ++ rest)) live
      = (.ok (some (.int junk)), rest, live + 1) := by
  rw [unpack_int32_tag, readN_exact _ _ h]

theorem unpack_int32_short (fuel : Nat) (junk : Int) (live : Nat)
    (s : List Nat) (h : s.length < 4) :
    Unpacker.unpack (fuel + 1) junk (bm.MP_INT32 :: s) live
      = (.error .exhausted, s, live) := by
  rw [unpack_int32_tag, readN_short h]

theorem unpack_int64_payload (fuel : Nat) (junk : Int) (live : Nat)
    (bs rest : List Nat) (h : bs.length = 8) :
    Unpacker.unpack (fuel + 1) junk (bm.MP_INT64 :: (bs ++ rest)) live
      = (.ok (some (.long (toSigned 64 (leVal bs)))), rest, live + 1) := by
  rw [unpack_int64_tag, readN_exact _ _ h]

theorem unpack_int64_short (fuel : Nat) (junk : Int) (live : Nat)
    (s : List Nat) (h : s.length < 8) :
    Unpacker.unpack (fuel + 1) junk (bm.MP_INT64 :: s) live
      = (.error .exhausted, s, live) := by
  rw [unpack_int64_tag, readN_short h]

theorem unpack_array16_payload (fuel : Nat) (junk : Int) (live : Nat)
    (bs rest : List Nat) (h : bs.length = 2) :
    Unpacker.unpack (fuel + 1) junk (bm.MP_ARRAY16 :: (bs ++ rest)) live
      = Unpacker.unpackList (Unpacker.unpack fuel junk) (toSigned 16 (leVal bs)) rest live := by
  rw [unpack_array16_tag, readN_exact _ _ h]

theorem unpack_array16_short (fuel : Nat) (junk : Int) (live : Nat)
    (s : List Nat) (h : s.length < 2) :
    Unpacker.unpack (fuel + 1) junk (bm.MP_ARRAY16 :: s) live
      = (.error .exhausted, s, live) := by
  rw [unpack_array16_tag, readN_short h]

theorem unpack_array32_payload (fuel : Nat) (junk : Int) (live : Nat)
    (bs rest : List Nat) (h : bs.length = 4) :
    Unpacker.unpack (fuel + 1) junk (bm.MP_ARRAY32 :: (bs ++ rest)) live
      = Unpacker.unpackList (Unpacker.unpack fuel junk) (toSigned 32 (leVal bs)) rest live := by
  rw [unpack_array32_tag, readN_exact _ _ h]

theorem unpack_array32_short (fuel : Nat) (junk : Int) (live : Nat)
    (s : List Nat) (h : s.length < 4) :
    Unpacker.unpack (fuel + 1) junk (bm.MP_ARRAY32 :: s) live
      = (.error .exhausted, s, live) := by
  rw [unpack_array32_tag, readN_short h]

theorem unpack_map16_payload (fuel : Nat) (junk : Int) (live : Nat)
    (bs rest : List Nat) (h : bs.length = 2) :
    Unpacker.unpack (fuel + 1) junk (bm.MP_MAP16 :: (bs ++ rest)) live
      = Unpacker.unpackMap (Unpacker.unpack fuel junk) (toSigned 16 (leVal bs)) rest live := by
  rw [unpack_map16_tag, readN_exact _ _ h]

theorem unpack_map16_short (fuel : Nat) (junk : Int) (live : Nat)
    (s : List Nat) (h : s.length < 2) :
    Unpacker.unpack (fuel + 1) junk (bm.MP_MAP16 :: s) live
      = (.error .exhausted, s, live) := by
  rw [unpack_map16_tag, readN_short h]

theorem unpack_map32_payload (fuel : Nat) (junk : Int) (live : Nat)
    (bs rest : List Nat) (h : bs.length = 4) :
    Unpacker.unpack (fuel + 1) junk (bm.MP_MAP32 :: (bs ++ rest)) live
      = Unpacker.unpackMap (Unpacker.unpack fuel junk) (toSigned 32 (leVal bs)) rest live := by
  rw [unpack_map32_tag, readN_exact _ _ h]

theorem unpack_map32_short (fuel : Nat) (junk : Int) (live : Nat)
    (s : List Nat) (h : s.length < 4) :
    Unpacker.unpack (fuel + 1) junk (bm.MP_MAP32 :: s) live
      = (.error .exhausted, s, live) := by
  rw [unpack_map32_tag, readN_short h]

theorem unpack_raw16_payload (fuel : Nat) (junk : Int) (live : Nat)
    (bs rest : List Nat) (h : bs.length = 2) :
    Unpacker.unpack (fuel + 1) junk (bm.MP_RAW16 :: (bs ++ rest)) live
      = Unpacker.unpackRaw ((leVal bs : Nat) : Int) rest live := by
  rw [unpack_raw16_tag, readN_exact _ _ h]

theorem unpack_raw16_short (fuel : Nat) (junk : Int) (live : Nat)
    (s : List Nat) (h : s.length < 2) :
    Unpacker.unpack (fuel + 1) junk (bm.MP_RAW16 :: s) live
      = (.error .exhausted, s, live) := by
  rw [unpack_raw16_tag, readN_short h]

theorem unpack_raw32_payload (fuel : Nat) (junk : Int) (live : Nat)
    (bs rest : List Nat) (h : bs.length = 4) :
    Unpacker.unpack (fuel + 1) junk (bm.MP_RAW32 :: (bs ++ rest)) live
      = Unpacker.unpackRaw (toSigned 32 (leVal bs)) rest live := by
  rw [unpack_raw32_tag, readN_exact _ _ h]

theorem unpack_raw32_short (fuel : Nat) (junk : Int) (live : Nat)
    (s : List Nat) (h : s.length < 4) :
    Unpacker.unpack (fuel + 1) junk (bm.MP_RAW32 :: s) live
      = (.error .exhausted, s, live) := by
  rw [unpack_raw32_tag, readN_short h]

theorem unpackRaw_neg (size : Int) (s : List Nat) (live : Nat) (h : size < 0) :
    Unpacker.unpackRaw size s live = (.ok none, s, live) := by
  rw [Unpacker.unpackRaw, if_pos h]

theorem unpackRaw_ok (n : Nat) (data rest : List Nat) (live : Nat) (h : data.length = n) :
    Unpacker.unpackRaw (n : Int) (data ++ rest) live
      = (.ok (some (.raw data)), rest, live + 2) := by
  rw [Unpacker.unpackRaw, if_neg (by omega), Int.toNat_natCast, readN_exact _ _ h]

theorem unpackRaw_short (n : Nat) (s : List Nat) (live : Nat) (h : s.length < n) :
    Unpacker.unpackRaw (n : Int) s live = (.error .exhausted, s, live + 1) := by
  rw [Unpacker.unpackRaw, if_neg (by omega), Int.toNat_natCast, readN_short h]

theorem unpackList_neg (u : List Nat → Nat → URes) (size : Int) (s : List Nat) (live : Nat)
    (h : size < 0) : Unpacker.unpackList u size s live = (.ok none, s, live) := by
  rw [Unpacker.unpackList, if_pos h]

theorem unpackList_nonneg (u : List Nat → Nat → URes) (n : Nat) (s : List Nat) (live : Nat) :
    Unpacker.unpackList u (n : Int) s live = Unpacker.listLoop u n s (live + 1) [] := by
  rw [Unpacker.unpackList, if_neg (by omega), Int.toNat_natCast]

theorem unpackMap_neg (u : List Nat → Nat → URes) (size : Int) (s : List Nat) (live : Nat)
    (h : size < 0) : Unpacker.unpackMap u size s live = (.ok none, s, live) := by
  rw [Unpacker.unpackMap, if_pos h]

theorem unpackMap_nonneg (u : List Nat → Nat → URes) (n : Nat) (s : List Nat) (live : Nat) :
    Unpacker.unpackMap u (n : Int) s live = Unpacker.mapLoop u n s (live + 1) [] := by
  rw [Unpacker.unpackMap, if_neg (by omega), Int.toNat_natCast]

theorem unpack_packValue_aux : ∀ (N : Nat) (v : MValue), sizeOf v ≤ N → v.wfb = true →
    ∀ fuel junk rest live, (packValue v).length < fuel →
      Unpacker.unpack fuel junk (packValue v ++ rest) live
        = (.ok (some (decObj junk v)), rest, live + allocCount v) := by
  intro N
  induction N with
  | zero =>
    intro v hv
    exfalso
    cases v <;> simp at hv
  | succ N ihN =>
    intro v hv hwf fuel junk rest live hfuel
    obtain ⟨f, rfl⟩ : ∃ f, fuel = f + 1 := ⟨fuel - 1, by omega⟩
    cases v with
    | nil =>
      rw [show packValue .nil ++ rest = bm.MP_NULL :: rest from rfl, unpack_nil_tag]
      rfl
    | bool b =>
      cases b
      · rw [show packValue (.bool false) ++ rest = bm.MP_FALSE :: rest from rfl, unpack_false_tag]
        rfl
      · rw [show packValue (.bool true) ++ rest = bm.MP_TRUE :: rest from rfl, unpack_true_tag]
        rfl
    | float bits =>
      rw [show packValue (.float bits) ++ rest = bm.MP_FLOAT :: (leBytes 4 bits ++ rest) by
        simp [packValue]]
      rw [unpack_float_payload f junk live _ rest (leBytes_length 4 bits), leVal_leBytes]
      norm_num [decObj, allocCount]
    | double bits =>
      rw [show packValue (.double bits) ++ rest = bm.MP_DOUBLE :: (leBytes 8 bits ++ rest) by
        simp [packValue]]
      rw [unpack_double_payload f junk live _ rest (leBytes_length 8 bits), leVal_leBytes]
      norm_num [decObj, allocCount]
    | int v =>
      simp only [packValue, pack_long, decObj, allocCount, bm.MAX_7BIT, bm.MAX_8BIT,
        bm.MAX_16BIT, bm.MAX_32BIT, bm.MAX_5BIT, bm.MAX_15BIT, bm.MAX_31BIT] at hfuel ⊢
      norm_num at hfuel ⊢
      split_ifs with h0 h1 h2 h3 h4 h5 h6 h7 h8
      · -- positive fixnum
        have hcast : ((toUns 8 v : Nat) : Int) = v :=
          toUns_cast_of_nonneg h0 (by norm_num; omega)
        rw [show [toUns 8 v ||| bm.MP_FIXNUM] ++ rest
            = (toUns 8 v ||| bm.MP_FIXNUM) :: rest from rfl]
        rw [show toUns 8 v ||| bm.MP_FIXNUM = toUns 8 v by simp [bm.MP_FIXNUM]]
        rw [unpack_posfixnum (toUns 8 v) (by omega) f junk rest live, hcast]
      · -- uint8
        rw [List.cons_append, unpack_uint8_payload f junk live _ rest (writeBytes_length 1 v),
          leVal_writeBytes]
        have hv8 : toUns (8 * 1) v = v.toNat := by
          norm_num
          exact toUns_of_nonneg h0 (by norm_num; omega)
        rw [hv8]
      · -- uint16
        rw [List.cons_append, unpack_uint16_payload f junk live _ rest (writeBytes_length 2 v),
          leVal_writeBytes]
        have hv16 : toUns (8 * 2) v = v.toNat := by
          norm_num
          exact toUns_of_nonneg h0 (by norm_num; omega)
        rw [hv16]
      · -- uint32
        rw [List.cons_append, unpack_uint32_payload f junk live _ rest (writeBytes_length 4 v),
          leVal_writeBytes]
        have hv32 : toUns (8 * 4) v = v.toNat := by
          norm_num
          exact toUns_of_nonneg h0 (by norm_num; omega)
        rw [hv32]
      · -- uint64
        rw [List.cons_append, unpack_uint64_payload f junk live _ rest (writeBytes_length 8 v),
          leVal_writeBytes]
      · -- negative fixnum
        have hcast : ((toUns 8 v : Nat) : Int) = v + 256 := by
          have h := toUns_cast_of_neg (w := 8) (v := v) (by norm_num; omega) (by omega)
          norm_num at h
          exact h
        rw [show [toUns 8 v ||| bm.MP_NEGATIVE_FIXNUM] ++ rest
            = (toUns 8 v ||| bm.MP_NEGATIVE_FIXNUM) :: rest from rfl]
        rw [toUns8_neg_or v (by omega) (by omega)]
        rw [unpack_negfixnum (toUns 8 v) (by omega) (by omega) f junk rest live]
        rw [show ((toUns 8 v : Nat) : Int) - 256 = v by omega]
      · -- int8
        rw [List.cons_append, unpack_int8_payload f junk live _ rest (writeBytes_length 1 v),
          leVal_writeBytes]
        rw [show toSigned 8 (toUns (8 * 1) v) = v by
          norm_num
          exact toSigned_toUns (by norm_num) (by norm_num; omega) (by norm_num; omega)]
      · -- int16
        rw [List.cons_append, unpack_int16_payload f junk live _ rest (writeBytes_length 2 v),
          leVal_writeBytes]
        rw [show toSigned 16 (toUns (8 * 2) v) = v by
          norm_num
          exact toSigned_toUns (by norm_num) (by norm_num; omega) (by norm_num; omega)]
      · -- int32: the decoded value is the uninitialised iVal
        rw [List.cons_append, unpack_int32_payload f junk live _ rest (writeBytes_length 4 v)]
      · -- int64
        rw [List.cons_append, unpack_int64_payload f junk live _ rest (writeBytes_length 8 v),
          leVal_writeBytes]
    | raw data =>
      simp only [MValue.wfb, decide_eq_true_eq] at hwf
      norm_num at hwf
      by_cases hfix : data.length ≤ 31
      · have hhdr : packValue (.raw data) = [data.length ||| bm.MP_FIXRAW] ++ data := by
          simp only [packValue, pack_raw]
          rw [if_pos (show ((data.length : Nat) : Int) ≤ bm.MAX_5BIT by
            simp only [bm.MAX_5BIT]; exact_mod_cast hfix)]
        rw [hhdr, show ([data.length ||| bm.MP_FIXRAW] ++ data) ++ rest
            = (data.length ||| bm.MP_FIXRAW) :: (data ++ rest) by simp]
        rw [unpack_fixraw_tag data.length hfix, unpackRaw_ok data.length data rest live rfl]
        rfl
      · by_cases h16 : data.length ≤ 65535
        · have hhdr : packValue (.raw data)
              = (bm.MP_RAW16 :: writeBytes 2 data.length) ++ data := by
            simp only [packValue, pack_raw]
            rw [if_neg (show ¬ ((data.length : Nat) : Int) ≤ bm.MAX_5BIT by
                simp only [bm.MAX_5BIT]; omega),
              if_pos (show ((data.length : Nat) : Int) ≤ bm.MAX_16BIT by
                simp only [bm.MAX_16BIT]; omega)]
          rw [hhdr, show ((bm.MP_RAW16 :: writeBytes 2 data.length) ++ data) ++ rest
              = bm.MP_RAW16 :: (writeBytes 2 data.length ++ (data ++ rest)) by simp]
          rw [unpack_raw16_payload f junk live _ _ (writeBytes_length 2 _), leVal_writeBytes]
          rw [show toUns (8 * 2) ((data.length : Nat) : Int) = data.length by
            norm_num
            rw [toUns_of_nonneg (by positivity) (by push_cast; norm_num; omega)]
            simp]
          rw [unpackRaw_ok data.length data rest live rfl]
          rfl
        · have hhdr : packValue (.raw data)
              = (bm.MP_RAW32 :: writeBytes 4 data.length) ++ data := by
            simp only [packValue, pack_raw]
            rw [if_neg (show ¬ ((data.length : Nat) : Int) ≤ bm.MAX_5BIT by
                simp only [bm.MAX_5BIT]; omega),
              if_neg (show ¬ ((data.length : Nat) : Int) ≤ bm.MAX_16BIT by
                simp only [bm.MAX_16BIT]; omega)]
          rw [hhdr, show ((bm.MP_RAW32 :: writeBytes 4 data.length) ++ data) ++ rest
              = bm.MP_RAW32 :: (writeBytes 4 data.length ++ (data ++ rest)) by simp]
          rw [unpack_raw32_payload f junk live _ _ (writeBytes_length 4 _), leVal_writeBytes]
          rw [show toSigned 32 (toUns (8 * 4) ((data.length : Nat) : Int))
              = ((data.length : Nat) : Int) by
            norm_num
            exact toSigned_toUns (by norm_num) (by norm_num; omega) (by push_cast; norm_num; omega)]
          rw [unpackRaw_ok data.length data rest live rfl]
          rfl
    | arr es =>
      simp only [MValue.wfb, Bool.and_eq_true] at hwf
      obtain ⟨hlen, hwfL⟩ := hwf
      simp only [lenOk, Bool.or_eq_true, Bool.and_eq_true, decide_eq_true_eq] at hlen
      have hIH : ∀ e ∈ es, ∀ fl rest2 lv, (packValue e).length < fl →
          Unpacker.unpack fl junk (packValue e ++ rest2) lv
            = (.ok (some (decObj junk e)), rest2, lv + allocCount e) := by
        intro e he fl rest2 lv hf2
        have hs : sizeOf e ≤ N := by
          have h1 := List.sizeOf_lt_of_mem he
          have h2 : sizeOf (MValue.arr es) = 1 + sizeOf es := by simp
          omega
        exact ihN e hs (wfbL_mem hwfL e he) fl junk rest2 lv hf2
      rcases hlen with hsmall | ⟨hbig1, hbig2⟩
      · by_cases hfix : es.length ≤ 15
        · have hhdr : packValue (.arr es)
              = [es.length ||| bm.MP_FIXARRAY] ++ packList es := by
            simp only [packValue, initContainerArray]
            rw [if_pos (show ((es.length : Nat) : Int) ≤ bm.MAX_4BIT by
              simp only [bm.MAX_4BIT]; exact_mod_cast hfix)]
          have hflen : (packList es).length < f := by
            rw [hhdr] at hfuel
            simp at hfuel
            omega
          rw [hhdr, show ([es.length ||| bm.MP_FIXARRAY] ++ packList es) ++ rest
              = (es.length ||| bm.MP_FIXARRAY) :: (packList es ++ rest) by simp]
          rw [unpack_fixarray_tag es.length hfix, unpackList_nonneg,
            listLoop_pack junk es hIH f rest (live + 1) [] hflen]
          simp [decObj, allocCount, Nat.add_assoc]
        · have hhdr : packValue (.arr es)
              = (bm.MP_ARRAY16 :: writeBytes 2 es.length) ++ packList es := by
            simp only [packValue, initContainerArray]
            rw [if_neg (show ¬ ((es.length : Nat) : Int) ≤ bm.MAX_4BIT by
                simp only [bm.MAX_4BIT]; omega),
              if_pos (show ((es.length : Nat) : Int) ≤ bm.MAX_16BIT by
                simp only [bm.MAX_16BIT]; omega)]
          have hflen : (packList es).length < f := by
            rw [hhdr] at hfuel
            simp [writeBytes_length] at hfuel
            omega
          rw [hhdr, show ((bm.MP_ARRAY16 :: writeBytes 2 es.length) ++ packList es) ++ rest
              = bm.MP_ARRAY16 :: (writeBytes 2 es.length ++ (packList es ++ rest)) by simp]
          rw [unpack_array16_payload f junk live _ _ (writeBytes_length 2 _), leVal_writeBytes]
          rw [show toSigned 16 (toUns (8 * 2) ((es.length : Nat) : Int))
              = ((es.length : Nat) : Int) by
            norm_num
            exact toSigned_toUns (by norm_num) (by norm_num; omega) (by push_cast; norm_num; omega)]
          rw [unpackList_nonneg, listLoop_pack junk es hIH f rest (live + 1) [] hflen]
          simp [decObj, allocCount, Nat.add_assoc]
      · have hhdr : packValue (.arr es)
            = (bm.MP_ARRAY32 :: writeBytes 4 es.length) ++ packList es := by
          simp only [packValue, initContainerArray]
          rw [if_neg (show ¬ ((es.length : Nat) : Int) ≤ bm.MAX_4BIT by
              simp only [bm.MAX_4BIT]; omega),
            if_neg (show ¬ ((es.length : Nat) : Int) ≤ bm.MAX_16BIT by
              simp only [bm.MAX_16BIT]; omega)]
        have hflen : (packList es).length < f := by
          rw [hhdr] at hfuel
          simp [writeBytes_length] at hfuel
          omega
        rw [hhdr, show ((bm.MP_ARRAY32 :: writeBytes 4 es.length) ++ packList es) ++ rest
            = bm.MP_ARRAY32 :: (writeBytes 4 es.length ++ (packList es ++ rest)) by simp]
        rw [unpack_array32_payload f junk live _ _ (writeBytes_length 4 _), leVal_writeBytes]
        rw [show toSigned 32 (toUns (8 * 4) ((es.length : Nat) : Int))
            = ((es.length : Nat) : Int) by
          norm_num
          exact toSigned_toUns (by norm_num) (by norm_num; omega) (by push_cast; norm_num; omega)]
        rw [unpackList_nonneg, listLoop_pack junk es hIH f rest (live + 1) [] hflen]
        simp [decObj, allocCount, Nat.add_assoc]
    | mp ps =>
      simp only [MValue.wfb, Bool.and_eq_true] at hwf
      obtain ⟨hlen, hwfP⟩ := hwf
      simp only [lenOk, Bool.or_eq_true, Bool.and_eq_true, decide_eq_true_eq] at hlen
      have hIH : ∀ p ∈ ps, ∀ fl rest2 lv, ((packValue p.1).length < fl →
          Unpacker.unpack fl junk (packValue p.1 ++ rest2) lv
            = (.ok (some (decObj junk p.1)), rest2, lv + allocCount p.1)) ∧
          ((packValue p.2).length < fl →
          Unpacker.unpack fl junk (packValue p.2 ++ rest2) lv
            = (.ok (some (decObj junk p.2)), rest2, lv + allocCount p.2)) := by
        intro p hp fl rest2 lv
        obtain ⟨k, w⟩ := p
        have h1 := List.sizeOf_lt_of_mem hp
        have h2 : sizeOf (MValue.mp ps) = 1 + sizeOf ps := by simp
        have h3 : sizeOf (k, w) = 1 + sizeOf k + sizeOf w := by simp
        have hk : sizeOf k ≤ N := by omega
        have hw : sizeOf w ≤ N := by omega
        have hwfp := wfbP_mem hwfP (k, w) hp
        exact ⟨fun hf2 => ihN k hk hwfp.1 fl junk rest2 lv hf2,
          fun hf2 => ihN w hw hwfp.2 fl junk rest2 lv hf2⟩
      rcases hlen with hsmall | ⟨hbig1, hbig2⟩
      · by_cases hfix : ps.length ≤ 15
        · have hhdr : packValue (.mp ps)
              = [ps.length ||| bm.MP_FIXMAP] ++ packPairs ps := by
            simp only [packValue, initContainerMap]
            rw [if_pos (show ((ps.length : Nat) : Int) ≤ bm.MAX_4BIT by
              simp only [bm.MAX_4BIT]; exact_mod_cast hfix)]
          have hflen : (packPairs ps).length < f := by
            rw [hhdr] at hfuel
            simp at hfuel
            omega
          rw [hhdr, show ([ps.length ||| bm.MP_FIXMAP] ++ packPairs ps) ++ rest
              = (ps.length ||| bm.MP_FIXMAP) :: (packPairs ps ++ rest) by simp]
          rw [unpack_fixmap_tag ps.length hfix, unpackMap_nonneg,
            mapLoop_pack junk ps hIH f rest (live + 1) [] hflen]
          simp [decObj, allocCount, Nat.add_assoc]
        · have hhdr : packValue (.mp ps)
              = (bm.MP_MAP16 :: writeBytes 2 ps.length) ++ packPairs ps := by
            simp only [packValue, initContainerMap]
            rw [if_neg (show ¬ ((ps.length : Nat) : Int) ≤ bm.MAX_4BIT by
                simp only [bm.MAX_4BIT]; omega),
              if_pos (show ((ps.length : Nat) : Int) ≤ bm.MAX_16BIT by
                simp only [bm.MAX_16BIT]; omega)]
          have hflen : (packPairs ps).length < f := by
            rw [hhdr] at hfuel
            simp [writeBytes_length] at hfuel
            omega
          rw [hhdr, show ((bm.MP_MAP16 :: writeBytes 2 ps.length) ++ packPairs ps) ++ rest
              = bm.MP_MAP16 :: (writeBytes 2 ps.length ++ (packPairs ps ++ rest)) by simp]
          rw [unpack_map16_payload f junk live _ _ (writeBytes_length 2 _), leVal_writeBytes]
          rw [show toSigned 16 (toUns (8 * 2) ((ps.length : Nat) : Int))
              = ((ps.length : Nat) : Int) by
            norm_num
            exact toSigned_toUns (by norm_num) (by norm_num; omega) (by push_cast; norm_num; omega)]
          rw [unpackMap_nonneg, mapLoop_pack junk ps hIH f rest (live + 1) [] hflen]
          simp [decObj, allocCount, Nat.add_assoc]
      · have hhdr : packValue (.mp ps)
            = (bm.MP_MAP32 :: writeBytes 4 ps.length) ++ packPairs ps := by
          simp only [packValue, initContainerMap]
          rw [if_neg (show ¬ ((ps.length : Nat) : Int) ≤ bm.MAX_4BIT by
              simp only [bm.MAX_4BIT]; omega),
            if_neg (show ¬ ((ps.length : Nat) : Int) ≤ bm.MAX_16BIT by
              simp only [bm.MAX_16BIT]; omega)]
        have hflen : (packPairs ps).length < f := by
          rw [hhdr] at hfuel
          simp [writeBytes_length] at hfuel
          omega
        rw [hhdr, show ((bm.MP_MAP32 :: writeBytes 4 ps.length) ++ packPairs ps) ++ rest
            = bm.MP_MAP32 :: (writeBytes 4 ps.length ++ (packPairs ps ++ rest)) by simp]
        rw [unpack_map32_payload f junk live _ _ (writeBytes_length 4 _), leVal_writeBytes]
        rw [show toSigned 32 (toUns (8 * 4) ((ps.length : Nat) : Int))
            = ((ps.length : Nat) : Int) by
          norm_num
          exact toSigned_toUns (by norm_num) (by norm_num; omega) (by push_cast; norm_num; omega)]
        rw [unpackMap_nonneg, mapLoop_pack junk ps hIH f rest (live + 1) [] hflen]
        simp [decObj, allocCount, Nat.add_assoc]

theorem packValue_length_pos (v : MValue) : 0 < (packValue v).length := by
  cases v with
  | nil => simp [packValue]
  | bool b => cases b <;> simp [packValue]
  | int v =>
    simp only [packValue, pack_long]
    split_ifs <;> simp
  | float bits => simp [packValue]
  | double bits => simp [packValue]
  | raw data =>
    simp only [packValue, pack_raw]
    split_ifs <;> simp
  | arr es =>
    simp only [packValue, initContainerArray]
    split_ifs <;> simp
  | mp ps =>
    simp only [packValue, initContainerMap]
    split_ifs <;> simp

theorem unpackRaw_mono (size : Int) (s : List Nat) (live : Nat) :
    live ≤ (Unpacker.unpackRaw size s live).2.2 := by
  rw [Unpacker.unpackRaw]
  split_ifs
  · exact Nat.le_refl live
  · cases h : readN size.toNat s with
    | ok v =>
      obtain ⟨data, s1⟩ := v
      simp [h]
    | error e => simp [h]

theorem listLoop_mono (u : List Nat → Nat → URes)
    (hu : ∀ s live, live ≤ (u s live).2.2) :
    ∀ n s live acc, live ≤ (Unpacker.listLoop u n s live acc).2.2 := by
  intro n
  induction n with
  | zero => intro s live acc; exact Nat.le_refl live
  | succ n ih =>
    intro s live acc
    have h1 := hu s live
    cases h : u s live with
    | mk r t =>
      obtain ⟨s1, l1⟩ := t
      rw [h] at h1
      cases r with
      | ok o =>
        have h2 := ih s1 l1 (acc ++ [o])
        calc live ≤ l1 := h1
          _ ≤ _ := by
            rw [listLoop_step u n s live acc o s1 l1 h]
            exact h2
      | error e =>
        rw [listLoop_step_err u n s live acc e s1 l1 h]
        exact h1

theorem mapLoop_mono (u : List Nat → Nat → URes)
    (hu : ∀ s live, live ≤ (u s live).2.2) :
    ∀ n s live acc, live ≤ (Unpacker.mapLoop u n s live acc).2.2 := by
  intro n
  induction n with
  | zero => intro s live acc; exact Nat.le_refl live
  | succ n ih =>
    intro s live acc
    have h1 := hu s live
    cases h : u s live with
    | mk r t =>
      obtain ⟨s1, l1⟩ := t
      rw [h] at h1
      cases r with
      | ok key =>
        have h2 := hu s1 l1
        cases h3 : u s1 l1 with
        | mk r2 t2 =>
          obtain ⟨s2, l2⟩ := t2
          rw [h3] at h2
          cases r2 with
          | ok val =>
            have h4 := ih s2 l2 (acc ++ [(key, val)])
            calc live ≤ l1 := h1
              _ ≤ l2 := h2
              _ ≤ _ := by
                rw [mapLoop_step u n s live acc key val s1 s2 l1 l2 h h3]
                exact h4
          | error e =>
            rw [mapLoop_step_err2 u n s live acc key s1 l1 e s2 l2 h h3]
            exact Nat.le_trans h1 h2
      | error e =>
        rw [mapLoop_step_err1 u n s live acc e s1 l1 h]
        exact h1

theorem unpackList_mono (u : List Nat → Nat → URes)
    (hu : ∀ s live, live ≤ (u s live).2.2) (size : Int) (s : List Nat) (live : Nat) :
    live ≤ (Unpacker.unpackList u size s live).2.2 := by
  rw [Unpacker.unpackList]
  split_ifs
  · exact Nat.le_refl live
  · exact Nat.le_trans (Nat.le_succ live) (listLoop_mono u hu _ s (live + 1) [])

theorem unpackMap_mono (u : List Nat → Nat → URes)
    (hu : ∀ s live, live ≤ (u s live).2.2) (size : Int) (s : List Nat) (live : Nat) :
    live ≤ (Unpacker.unpackMap u size s live).2.2 := by
  rw [Unpacker.unpackMap]
  split_ifs
  · exact Nat.le_refl live
  · exact Nat.le_trans (Nat.le_succ live) (mapLoop_mono u hu _ s (live + 1) [])

set_option maxHeartbeats 2000000 in
/-- The decoder never releases an allocation: the ledger only grows, on
success and on failure alike (`Unpacker` contains no `delete`). -/
theorem unpack_live_mono : ∀ (fuel : Nat) (junk : Int) (s : List Nat) (live : Nat),
    live ≤ (Unpacker.unpack fuel junk s live).2.2 := by
  intro fuel
  induction fuel with
  | zero => intro junk s live; exact Nat.le_refl live
  | succ f ih =>
    intro junk s live
    cases s with
    | nil => exact Nat.le_refl live
    | cons b s1 =>
      show live ≤ (Unpacker.unpack (f + 1) junk (b :: s1) live).2.2
      rw [Unpacker.unpack.eq_3]
      by_cases hc0 : b = 0xc0
      · rw [if_pos hc0]
        exact Nat.le_succ live
      rw [if_neg hc0]
      by_cases hc1 : b = 0xc2
      · rw [if_pos hc1]
        exact Nat.le_succ live
      rw [if_neg hc1]
      by_cases hc2 : b = 0xc3
      · rw [if_pos hc2]
        exact Nat.le_succ live
      rw [if_neg hc2]
      by_cases hc3 : b = 0xca
      · rw [if_pos hc3]
        cases h : readN 4 s1 with
        | ok v =>
          obtain ⟨bs, s2⟩ := v
          exact Nat.le_succ live
        | error e =>
          exact Nat.le_refl live
      rw [if_neg hc3]
      by_cases hc4 : b = 0xcb
      · rw [if_pos hc4]
        cases h : readN 8 s1 with
        | ok v =>
          obtain ⟨bs, s2⟩ := v
          exact Nat.le_succ live
        | error e =>
          exact Nat.le_refl live
      rw [if_neg hc4]
      by_cases hc5 : b = 0xcc
      · rw [if_pos hc5]
        cases h : readN 1 s1 with
        | ok v =>
          obtain ⟨bs, s2⟩ := v
          exact Nat.le_succ live
        | error e =>
          exact Nat.le_refl live
      rw [if_neg hc5]
      by_cases hc6 : b = 0xcd
      · rw [if_pos hc6]
        cases h : readN 2 s1 with
        | ok v =>
          obtain ⟨bs, s2⟩ := v
          exact Nat.le_succ live
        | error e =>
          exact Nat.le_refl live
      rw [if_neg hc6]
      by_cases hc7 : b = 0xce
      · rw [if_pos hc7]
        cases h : readN 4 s1 with
        | ok v =>
          obtain ⟨bs, s2⟩ := v
          exact Nat.le_succ live
        | error e =>
          exact Nat.le_refl live
      rw [if_neg hc7]
      by_cases hc8 : b = 0xcf
      · rw [if_pos hc8]
        cases h : readN 8 s1 with
        | ok v =>
          obtain ⟨bs, s2⟩ := v
          exact Nat.le_succ live
        | error e =>
          exact Nat.le_refl live
      rw [if_neg hc8]
      by_cases hc9 : b = 0xd0
      · rw [if_pos hc9]
        cases h : readN 1 s1 with
        | ok v =>
          obtain ⟨bs, s2⟩ := v
          exact Nat.le_succ live
        | error e =>
          exact Nat.le_refl live
      rw [if_neg hc9]
      by_cases hc10 : b = 0xd1
      · rw [if_pos hc10]
        cases h : readN 2 s1 with
        | ok v =>
          obtain ⟨bs, s2⟩ := v
          exact Nat.le_succ live
        | error e =>
          exact Nat.le_refl live
      rw [if_neg hc10]
      by_cases hc11 : b = 0xd2
      · rw [if_pos hc11]
        cases h : readN 4 s1 with
        | ok v =>
          obtain ⟨bs, s2⟩ := v
          exact Nat.le_succ live
        | error e =>
          exact Nat.le_refl live
      rw [if_neg hc11]
      by_cases hc12 : b = 0xd3
      · rw [if_pos hc12]
        cases h : readN 8 s1 with
        | ok v =>
          obtain ⟨bs, s2⟩ := v
          exact Nat.le_succ live
        | error e =>
          exact Nat.le_refl live
      rw [if_neg hc12]
      by_cases hc13 : b = 0xdc
      · rw [if_pos hc13]
        cases h : readN 2 s1 with
        | ok v =>
          obtain ⟨bs, s2⟩ := v
          exact unpackList_mono _ (ih junk) _ _ _
        | error e =>
          exact Nat.le_refl live
      rw [if_neg hc13]
      by_cases hc14 : b = 0xdd
      · rw [if_pos hc14]
        cases h : readN 4 s1 with
        | ok v =>
          obtain ⟨bs, s2⟩ := v
          exact unpackList_mono _ (ih junk) _ _ _
        | error e =>
          exact Nat.le_refl live
      rw [if_neg hc14]
      by_cases hc15 : b = 0xde
      · rw [if_pos hc15]
        cases h : readN 2 s1 with
        | ok v =>
          obtain ⟨bs, s2⟩ := v
          exact unpackMap_mono _ (ih junk) _ _ _
        | error e =>
          exact Nat.le_refl live
      rw [if_neg hc15]
      by_cases hc16 : b = 0xdf
      · rw [if_pos hc16]
        cases h : readN 4 s1 with
        | ok v =>
          obtain ⟨bs, s2⟩ := v
          exact unpackMap_mono _ (ih junk) _ _ _
        | error e =>
          exact Nat.le_refl live
      rw [if_neg hc16]
      by_cases hc17 : b = 0xda
      · rw [if_pos hc17]
        cases h : readN 2 s1 with
        | ok v =>
          obtain ⟨bs, s2⟩ := v
          exact unpackRaw_mono _ _ _
        | error e =>
          exact Nat.le_refl live
      rw [if_neg hc17]
      by_cases hc18 : b = 0xdb
      · rw [if_pos hc18]
        cases h : readN 4 s1 with
        | ok v =>
          obtain ⟨bs, s2⟩ := v
          exact unpackRaw_mono _ _ _
        | error e =>
          exact Nat.le_refl live
      rw [if_neg hc18]
      by_cases hc19 : b &&& 0xe0 = 0xa0
      · rw [if_pos hc19]
        exact unpackRaw_mono _ _ _
      rw [if_neg hc19]
      by_cases hc20 : b &&& 0xe0 = 0xe0
      · rw [if_pos hc20]
        exact Nat.le_succ live
      rw [if_neg hc20]
      by_cases hc21 : b &&& 0xf0 = 0x90
      · rw [if_pos hc21]
        exact unpackList_mono _ (ih junk) _ _ _
      rw [if_neg hc21]
      by_cases hc22 : b &&& 0xf0 = 0x80
      · rw [if_pos hc22]
        exact unpackMap_mono _ (ih junk) _ _ _
      rw [if_neg hc22]
      by_cases hc23 : b ≤ 127
      · rw [if_pos hc23]
        exact Nat.le_succ live
      rw [if_neg hc23]

theorem listLoop_take (junk : Int) (es : List MValue)
    (IHok : ∀ e ∈ es, ∀ fl rest lv, (packValue e).length < fl →
      Unpacker.unpack fl junk (packValue e ++ rest) lv
        = (.ok (some (decObj junk e)), rest, lv + allocCount e))
    (IHtr : ∀ e ∈ es, ∀ k, k < (packValue e).length → ∀ fl lv,
      (packValue e).length < fl →
      (Unpacker.unpack fl junk (List.take k (packValue e)) lv).1 = .error .exhausted) :
    ∀ k fuel live acc, k < (packList es).length → (packList es).length < fuel →
      (Unpacker.listLoop (Unpacker.unpack fuel junk) es.length
        (List.take k (packList es)) live acc).1 = .error .exhausted := by
  induction es with
  | nil =>
    intro k fuel live acc hk hfuel
    simp [packList] at hk
  | cons e t ih =>
    intro k fuel live acc hk hfuel
    rw [packList_length_cons] at hk hfuel
    rw [List.length_cons]
    by_cases hke : k < (packValue e).length
    · have htk : List.take k (packList (e :: t)) = List.take k (packValue e) := by
        rw [show packList (e :: t) = packValue e ++ packList t from rfl,
          List.take_append_eq_append_take, show k - (packValue e).length = 0 by omega]
        simp
      rw [htk]
      have h1 := IHtr e (by simp) k hke fuel live (by omega)
      rcases hres : Unpacker.unpack fuel junk (List.take k (packValue e)) live with ⟨r, s1, l1⟩
      rw [hres] at h1
      cases r with
      | ok o => exact absurd h1 (by simp)
      | error err =>
        cases err
        rw [listLoop_step_err _ _ _ _ _ _ _ _ hres]
    · have htk : List.take k (packList (e :: t))
          = packValue e ++ List.take (k - (packValue e).length) (packList t) := by
        rw [show packList (e :: t) = packValue e ++ packList t from rfl,
          List.take_append_eq_append_take, List.take_of_length_le (by omega)]
      rw [htk]
      have h1 := IHok e (by simp) fuel
        (List.take (k - (packValue e).length) (packList t)) live (by omega)
      rw [listLoop_step _ _ _ _ _ _ _ _ h1]
      exact ih (fun x hx => IHok x (by simp [hx])) (fun x hx => IHtr x (by simp [hx]))
        (k - (packValue e).length) fuel (live + allocCount e)
        (acc ++ [some (decObj junk e)]) (by omega) (by omega)

theorem mapLoop_take (junk : Int) (ps : List (MValue × MValue))
    (IHok : ∀ p ∈ ps, ∀ fl rest lv, ((packValue p.1).length < fl →
      Unpacker.unpack fl junk (packValue p.1 ++ rest) lv
        = (.ok (some (decObj junk p.1)), rest, lv + allocCount p.1)) ∧
      ((packValue p.2).length < fl →
      Unpacker.unpack fl junk (packValue p.2 ++ rest) lv
        = (.ok (some (decObj junk p.2)), rest, lv + allocCount p.2)))
    (IHtr : ∀ p ∈ ps, ∀ k fl lv, (k < (packValue p.1).length →
      (packValue p.1).length < fl →
      (Unpacker.unpack fl junk (List.take k (packValue p.1)) lv).1 = .error .exhausted) ∧
      (k < (packValue p.2).length →
      (packValue p.2).length < fl →
      (Unpacker.unpack fl junk (List.take k (packValue p.2)) lv).1 = .error .exhausted)) :
    ∀ k fuel live acc, k < (packPairs ps).length → (packPairs ps).length < fuel →
      (Unpacker.mapLoop (Unpacker.unpack fuel junk) ps.length
        (List.take k (packPairs ps)) live acc).1 = .error .exhausted := by
  induction ps with
  | nil =>
    intro k fuel live acc hk hfuel
    simp [packPairs] at hk
  | cons p t ih =>
    obtain ⟨kv, vv⟩ := p
    intro k fuel live acc hk hfuel
    rw [packPairs_length_cons] at hk hfuel
    rw [List.length_cons]
    have hIHok := IHok (kv, vv) (by simp)
    have hIHtr := IHtr (kv, vv) (by simp)
    dsimp only at hIHok hIHtr
    have hpp : packPairs ((kv, vv) :: t) = packValue kv ++ (packValue vv ++ packPairs t) := by
      simp [packPairs]
    by_cases hkk : k < (packValue kv).length
    · have htk : List.take k (packPairs ((kv, vv) :: t)) = List.take k (packValue kv) := by
        rw [hpp, List.take_append_eq_append_take, show k - (packValue kv).length = 0 by omega]
        simp
      rw [htk]
      have h1 := (hIHtr k fuel live).1 hkk (by omega)
      rcases hres : Unpacker.unpack fuel junk (List.take k (packValue kv)) live with ⟨r, s1, l1⟩
      rw [hres] at h1
      cases r with
      | ok o => exact absurd h1 (by simp)
      | error err =>
        cases err
        rw [mapLoop_step_err1 _ _ _ _ _ _ _ _ hres]
    · by_cases hkv : k < (packValue kv).length + (packValue vv).length
      · have htk : List.take k (packPairs ((kv, vv) :: t))
            = packValue kv ++ List.take (k - (packValue kv).length) (packValue vv) := by
          rw [hpp, List.take_append_eq_append_take, List.take_of_length_le (by omega),
            List.take_append_eq_append_take,
            show k - (packValue kv).length - (packValue vv).length = 0 by omega]
          simp
        rw [htk]
        have h1 := (hIHok fuel (List.take (k - (packValue kv).length) (packValue vv)) live).1
          (by omega)
        have h2 := (hIHtr (k - (packValue kv).length) fuel (live + allocCount kv)).2
          (by omega) (by omega)
        rcases hres : Unpacker.unpack fuel junk
            (List.take (k - (packValue kv).length) (packValue vv))
            (live + allocCount kv) with ⟨r, s1, l1⟩
        rw [hres] at h2
        cases r with
        | ok o => exact absurd h2 (by simp)
        | error err =>
          cases err
          rw [mapLoop_step_err2 _ _ _ _ _ _ _ _ _ _ _ h1 hres]
      · have htk : List.take k (packPairs ((kv, vv) :: t))
            = packValue kv ++ (packValue vv
              ++ List.take (k - (packValue kv).length - (packValue vv).length) (packPairs t)) := by
          rw [hpp, List.take_append_eq_append_take, List.take_of_length_le (by omega),
            List.take_append_eq_append_take, List.take_of_length_le (by omega)]
        rw [htk]
        have h1 := (hIHok fuel (packValue vv
          ++ List.take (k - (packValue kv).length - (packValue vv).length) (packPairs t)) live).1
          (by omega)
        have h2 := (hIHok fuel
          (List.take (k - (packValue kv).length - (packValue vv).length) (packPairs t))
          (live + allocCount kv)).2 (by omega)
        rw [mapLoop_step _ _ _ _ _ _ _ _ _ _ _ h1 h2]
        exact ih (fun x hx => IHok x (by simp [hx])) (fun x hx => IHtr x (by simp [hx]))
          (k - (packValue kv).length - (packValue vv).length) fuel
          (live + allocCount kv + allocCount vv)
          (acc ++ [(some (decObj junk kv), some (decObj junk vv))]) (by omega) (by omega)

theorem unpack_take_aux : ∀ (N : Nat) (v : MValue), sizeOf v ≤ N → v.wfb = true →
    ∀ k, k < (packValue v).length →
    ∀ fuel junk live, (packValue v).length < fuel →
      (Unpacker.unpack fuel junk (List.take k (packValue v)) live).1 = .error .exhausted := by
  intro N
  induction N with
  | zero =>
    intro v hv
    exfalso
    cases v <;> simp at hv
  | succ N ihN =>
    intro v hv hwf k hk fuel junk live hfuel
    obtain ⟨f, rfl⟩ : ∃ f, fuel = f + 1 := ⟨fuel - 1, by omega⟩
    by_cases hk0 : k = 0
    · subst hk0
      rw [List.take_zero, unpack_empty]
    obtain ⟨j, rfl⟩ : ∃ j, k = j + 1 := ⟨k - 1, by omega⟩
    cases v with
    | nil =>
      simp only [packValue, List.length_cons, List.length_nil] at hk
      omega
    | bool b =>
      cases b <;> simp only [packValue, List.length_cons, List.length_nil] at hk <;> omega
    | float bits =>
      rw [show packValue (.float bits) = bm.MP_FLOAT :: leBytes 4 bits from rfl] at hk ⊢
      simp only [List.length_cons, leBytes_length] at hk
      rw [List.take_succ_cons, unpack_float_short f junk live _
        (by simp [List.length_take, leBytes_length]; omega)]
    | double bits =>
      rw [show packValue (.double bits) = bm.MP_DOUBLE :: leBytes 8 bits from rfl] at hk ⊢
      simp only [List.length_cons, leBytes_length] at hk
      rw [List.take_succ_cons, unpack_double_short f junk live _
        (by simp [List.length_take, leBytes_length]; omega)]
    | int v =>
      simp only [packValue, pack_long, bm.MAX_7BIT, bm.MAX_8BIT, bm.MAX_16BIT,
        bm.MAX_32BIT, bm.MAX_5BIT, bm.MAX_15BIT, bm.MAX_31BIT] at hk ⊢
      split_ifs at hk ⊢ with h0 h1 h2 h3 h4 h5 h6 h7 h8
      · simp only [List.length_cons, List.length_nil] at hk
        omega
      · simp only [List.length_cons, writeBytes_length] at hk
        rw [List.take_succ_cons, unpack_uint8_short f junk live _
          (by simp [List.length_take, writeBytes_length]; omega)]
      · simp only [List.length_cons, writeBytes_length] at hk
        rw [List.take_succ_cons, unpack_uint16_short f junk live _
          (by simp [List.length_take, writeBytes_length]; omega)]
      · simp only [List.length_cons, writeBytes_length] at hk
        rw [List.take_succ_cons, unpack_uint32_short f junk live _
          (by simp [List.length_take, writeBytes_length]; omega)]
      · simp only [List.length_cons, writeBytes_length] at hk
        rw [List.take_succ_cons, unpack_uint64_short f junk live _
          (by simp [List.length_take, writeBytes_length]; omega)]
      · simp only [List.length_cons, List.length_nil] at hk
        omega
      · simp only [List.length_cons, writeBytes_length] at hk
        rw [List.take_succ_cons, unpack_int8_short f junk live _
          (by simp [List.length_take, writeBytes_length]; omega)]
      · simp only [List.length_cons, writeBytes_length] at hk
        rw [List.take_succ_cons, unpack_int16_short f junk live _
          (by simp [List.length_take, writeBytes_length]; omega)]
      · simp only [List.length_cons, writeBytes_length] at hk
        rw [List.take_succ_cons, unpack_int32_short f junk live _
          (by simp [List.length_take, writeBytes_length]; omega)]
      · simp only [List.length_cons, writeBytes_length] at hk
        rw [List.take_succ_cons, unpack_int64_short f junk live _
          (by simp [List.length_take, writeBytes_length]; omega)]
    | raw data =>
      simp only [MValue.wfb, decide_eq_true_eq] at hwf
      norm_num at hwf
      by_cases hfix : data.length ≤ 31
      · have hhdr : packValue (.raw data) = (data.length ||| bm.MP_FIXRAW) :: data := by
          simp only [packValue, pack_raw]
          rw [if_pos (show ((data.length : Nat) : Int) ≤ bm.MAX_5BIT by
            simp only [bm.MAX_5BIT]; exact_mod_cast hfix)]
          simp
        rw [hhdr] at hk ⊢
        simp only [List.length_cons] at hk
        rw [List.take_succ_cons, unpack_fixraw_tag data.length hfix,
          unpackRaw_short data.length _ live (by simp [List.length_take]; omega)]
      · by_cases h16 : data.length ≤ 65535
        · have hhdr : packValue (.raw data)
              = bm.MP_RAW16 :: (writeBytes 2 data.length ++ data) := by
            simp only [packValue, pack_raw]
            rw [if_neg (show ¬ ((data.length : Nat) : Int) ≤ bm.MAX_5BIT by
                simp only [bm.MAX_5BIT]; omega),
              if_pos (show ((data.length : Nat) : Int) ≤ bm.MAX_16BIT by
                simp only [bm.MAX_16BIT]; omega)]
            simp
          rw [hhdr] at hk ⊢
          simp only [List.length_cons, List.length_append, writeBytes_length] at hk
          rw [List.take_succ_cons]
          by_cases hj : j < 2
          · have htk : List.take j (writeBytes 2 data.length ++ data)
                = List.take j (writeBytes 2 data.length) := by
              rw [List.take_append_eq_append_take,
                show j - (writeBytes 2 data.length).length = 0 by
                  simp [writeBytes_length]; omega]
              simp
            rw [htk, unpack_raw16_short f junk live _
              (by simp [List.length_take, writeBytes_length]; omega)]
          · have htk : List.take j (writeBytes 2 data.length ++ data)
                = writeBytes 2 data.length ++ List.take (j - 2) data := by
              rw [List.take_append_eq_append_take,
                List.take_of_length_le (by simp [writeBytes_length]; omega)]
              simp [writeBytes_length]
            rw [htk, unpack_raw16_payload f junk live _ _ (writeBytes_length 2 _),
              leVal_writeBytes]
            rw [show toUns (8 * 2) ((data.length : Nat) : Int) = data.length by
              norm_num
              rw [toUns_of_nonneg (by positivity) (by norm_num; omega)]
              simp]
            rw [unpackRaw_short data.length _ live (by simp [List.length_take]; omega)]
        · have hhdr : packValue (.raw data)
              = bm.MP_RAW32 :: (writeBytes 4 data.length ++ data) := by
            simp only [packValue, pack_raw]
            rw [if_neg (show ¬ ((data.length : Nat) : Int) ≤ bm.MAX_5BIT by
                simp only [bm.MAX_5BIT]; omega),
              if_neg (show ¬ ((data.length : Nat) : Int) ≤ bm.MAX_16BIT by
                simp only [bm.MAX_16BIT]; omega)]
            simp
          rw [hhdr] at hk ⊢
          simp only [List.length_cons, List.length_append, writeBytes_length] at hk
          rw [List.take_succ_cons]
          by_cases hj : j < 4
          · have htk : List.take j (writeBytes 4 data.length ++ data)
                = List.take j (writeBytes 4 data.length) := by
              rw [List.take_append_eq_append_take,
                show j - (writeBytes 4 data.length).length = 0 by
                  simp [writeBytes_length]; omega]
              simp
            rw [htk, unpack_raw32_short f junk live _
              (by simp [List.length_take, writeBytes_length]; omega)]
          · have htk : List.take j (writeBytes 4 data.length ++ data)
                = writeBytes 4 data.length ++ List.take (j - 4) data := by
              rw [List.take_append_eq_append_take,
                List.take_of_length_le (by simp [writeBytes_length]; omega)]
              simp [writeBytes_length]
            rw [htk, unpack_raw32_payload f junk live _ _ (writeBytes_length 4 _),
              leVal_writeBytes]
            rw [show toSigned 32 (toUns (8 * 4) ((data.length : Nat) : Int))
                = ((data.length : Nat) : Int) by
              norm_num
              exact toSigned_toUns (by norm_num) (by norm_num; omega) (by norm_num; omega)]
            rw [show ((data.length : Nat) : Int) = ((data.length : Nat) : Int) from rfl]
            rw [unpackRaw_short data.length _ live (by simp [List.length_take]; omega)]
    | arr es =>
      simp only [MValue.wfb, Bool.and_eq_true] at hwf
      obtain ⟨hlen, hwfL⟩ := hwf
      simp only [lenOk, Bool.or_eq_true, Bool.and_eq_true, decide_eq_true_eq] at hlen
      have hIHok : ∀ e ∈ es, ∀ fl rest2 lv, (packValue e).length < fl →
          Unpacker.unpack fl junk (packValue e ++ rest2) lv
            = (.ok (some (decObj junk e)), rest2, lv + allocCount e) :=
        fun e he fl rest2 lv hf2 =>
          unpack_packValue_aux (sizeOf e) e (Nat.le_refl _) (wfbL_mem hwfL e he)
            fl junk rest2 lv hf2
      have hIHtr : ∀ e ∈ es, ∀ kk, kk < (packValue e).length → ∀ fl lv,
          (packValue e).length < fl →
          (Unpacker.unpack fl junk (List.take kk (packValue e)) lv).1 = .error .exhausted := by
        intro e he kk hkk fl lv hf2
        have hs : sizeOf e ≤ N := by
          have h1 := List.sizeOf_lt_of_mem he
          have h2 : sizeOf (MValue.arr es) = 1 + sizeOf es := by simp
          omega
        exact ihN e hs (wfbL_mem hwfL e he) kk hkk fl junk lv hf2
      rcases hlen with hsmall | ⟨hbig1, hbig2⟩
      · by_cases hfix : es.length ≤ 15
        · have hhdr : packValue (.arr es)
              = (es.length ||| bm.MP_FIXARRAY) :: packList es := by
            simp only [packValue, initContainerArray]
            rw [if_pos (show ((es.length : Nat) : Int) ≤ bm.MAX_4BIT by
              simp only [bm.MAX_4BIT]; exact_mod_cast hfix)]
            simp
          rw [hhdr] at hk hfuel ⊢
          simp only [List.length_cons] at hk hfuel
          rw [List.take_succ_cons, unpack_fixarray_tag es.length hfix, unpackList_nonneg]
          exact listLoop_take junk es hIHok hIHtr j f (live + 1) [] (by omega) (by omega)
        · have hhdr : packValue (.arr es)
              = bm.MP_ARRAY16 :: (writeBytes 2 es.length ++ packList es) := by
            simp only [packValue, initContainerArray]
            rw [if_neg (show ¬ ((es.length : Nat) : Int) ≤ bm.MAX_4BIT by
                simp only [bm.MAX_4BIT]; omega),
              if_pos (show ((es.length : Nat) : Int) ≤ bm.MAX_16BIT by
                simp only [bm.MAX_16BIT]; omega)]
            simp
          rw [hhdr] at hk hfuel ⊢
          simp only [List.length_cons, List.length_append, writeBytes_length] at hk hfuel
          rw [List.take_succ_cons]
          by_cases hj : j < 2
          · have htk : List.take j (writeBytes 2 es.length ++ packList es)
                = List.take j (writeBytes 2 es.length) := by
              rw [List.take_append_eq_append_take,
                show j - (writeBytes 2 es.length).length = 0 by
                  simp [writeBytes_length]; omega]
              simp
            rw [htk, unpack_array16_short f junk live _
              (by simp [List.length_take, writeBytes_length]; omega)]
          · have htk : List.take j (writeBytes 2 es.length ++ packList es)
                = writeBytes 2 es.length ++ List.take (j - 2) (packList es) := by
              rw [List.take_append_eq_append_take,
                List.take_of_length_le (by simp [writeBytes_length]; omega)]
              simp [writeBytes_length]
            rw [htk, unpack_array16_payload f junk live _ _ (writeBytes_length 2 _),
              leVal_writeBytes]
            rw [show toSigned 16 (toUns (8 * 2) ((es.length : Nat) : Int))
                = ((es.length : Nat) : Int) by
              norm_num
              exact toSigned_toUns (by norm_num) (by norm_num; omega) (by norm_num; omega)]
            rw [unpackList_nonneg]
            exact listLoop_take junk es hIHok hIHtr (j - 2) f (live + 1) []
              (by omega) (by omega)
      · have hhdr : packValue (.arr es)
            = bm.MP_ARRAY32 :: (writeBytes 4 es.length ++ packList es) := by
          simp only [packValue, initContainerArray]
          rw [if_neg (show ¬ ((es.length : Nat) : Int) ≤ bm.MAX_4BIT by
              simp only [bm.MAX_4BIT]; omega),
            if_neg (show ¬ ((es.length : Nat) : Int) ≤ bm.MAX_16BIT by
              simp only [bm.MAX_16BIT]; omega)]
          simp
        rw [hhdr] at hk hfuel ⊢
        simp only [List.length_cons, List.length_append, writeBytes_length] at hk hfuel
        rw [List.take_succ_cons]
        by_cases hj : j < 4
        · have htk : List.take j (writeBytes 4 es.length ++ packList es)
              = List.take j (writeBytes 4 es.length) := by
            rw [List.take_append_eq_append_take,
              show j - (writeBytes 4 es.length).length = 0 by
                simp [writeBytes_length]; omega]
            simp
          rw [htk, unpack_array32_short f junk live _
            (by simp [List.length_take, writeBytes_length]; omega)]
        · have htk : List.take j (writeBytes 4 es.length ++ packList es)
              = writeBytes 4 es.length ++ List.take (j - 4) (packList es) := by
            rw [List.take_append_eq_append_take,
              List.take_of_length_le (by simp [writeBytes_length]; omega)]
            simp [writeBytes_length]
          rw [htk, unpack_array32_payload f junk live _ _ (writeBytes_length 4 _),
            leVal_writeBytes]
          rw [show toSigned 32 (toUns (8 * 4) ((es.length : Nat) : Int))
              = ((es.length : Nat) : Int) by
            norm_num
            exact toSigned_toUns (by norm_num) (by norm_num; omega) (by norm_num; omega)]
          rw [unpackList_nonneg]
          exact listLoop_take junk es hIHok hIHtr (j - 4) f (live + 1) []
            (by omega) (by omega)
    | mp ps =>
      simp only [MValue.wfb, Bool.and_eq_true] at hwf
      obtain ⟨hlen, hwfP⟩ := hwf
      simp only [lenOk, Bool.or_eq_true, Bool.and_eq_true, decide_eq_true_eq] at hlen
      have hIHok : ∀ p ∈ ps, ∀ fl rest2 lv, ((packValue p.1).length < fl →
          Unpacker.unpack fl junk (packValue p.1 ++ rest2) lv
            = (.ok (some (decObj junk p.1)), rest2, lv + allocCount p.1)) ∧
          ((packValue p.2).length < fl →
          Unpacker.unpack fl junk (packValue p.2 ++ rest2) lv
            = (.ok (some (decObj junk p.2)), rest2, lv + allocCount p.2)) := by
        intro p hp fl rest2 lv
        have hw := wfbP_mem hwfP p hp
        exact ⟨fun hf2 => unpack_packValue_aux (sizeOf p.1) p.1 (Nat.le_refl _) hw.1
            fl junk rest2 lv hf2,
          fun hf2 => unpack_packValue_aux (sizeOf p.2) p.2 (Nat.le_refl _) hw.2
            fl junk rest2 lv hf2⟩
      have hIHtr : ∀ p ∈ ps, ∀ kk fl lv, (kk < (packValue p.1).length →
          (packValue p.1).length < fl →
          (Unpacker.unpack fl junk (List.take kk (packValue p.1)) lv).1 = .error .exhausted) ∧
          (kk < (packValue p.2).length →
          (packValue p.2).length < fl →
          (Unpacker.unpack fl junk (List.take kk (packValue p.2)) lv).1 = .error .exhausted) := by
        intro p hp kk fl lv
        obtain ⟨k1, v1⟩ := p
        have h1 := List.sizeOf_lt_of_mem hp
        have h2 : sizeOf (MValue.mp ps) = 1 + sizeOf ps := by simp
        have h3 : sizeOf (k1, v1) = 1 + sizeOf k1 + sizeOf v1 := by simp
        have hw := wfbP_mem hwfP (k1, v1) hp
        exact ⟨fun hkk hf2 => ihN k1 (by omega) hw.1 kk hkk fl junk lv hf2,
          fun hkk hf2 => ihN v1 (by omega) hw.2 kk hkk fl junk lv hf2⟩
      rcases hlen with hsmall | ⟨hbig1, hbig2⟩
      · by_cases hfix : ps.length ≤ 15
        · have hhdr : packValue (.mp ps)
              = (ps.length ||| bm.MP_FIXMAP) :: packPairs ps := by
            simp only [packValue, initContainerMap]
            rw [if_pos (show ((ps.length : Nat) : Int) ≤ bm.MAX_4BIT by
              simp only [bm.MAX_4BIT]; exact_mod_cast hfix)]
            simp
          rw [hhdr] at hk hfuel ⊢
          simp only [List.length_cons] at hk hfuel
          rw [List.take_succ_cons, unpack_fixmap_tag ps.length hfix, unpackMap_nonneg]
          exact mapLoop_take junk ps hIHok hIHtr j f (live + 1) [] (by omega) (by omega)
        · have hhdr : packValue (.mp ps)
              = bm.MP_MAP16 :: (writeBytes 2 ps.length ++ packPairs ps) := by
            simp only [packValue, initContainerMap]
            rw [if_neg (show ¬ ((ps.length : Nat) : Int) ≤ bm.MAX_4BIT by
                simp only [bm.MAX_4BIT]; omega),
              if_pos (show ((ps.length : Nat) : Int) ≤ bm.MAX_16BIT by
                simp only [bm.MAX_16BIT]; omega)]
            simp
          rw [hhdr] at hk hfuel ⊢
          simp only [List.length_cons, List.length_append, writeBytes_length] at hk hfuel
          rw [List.take_succ_cons]
          by_cases hj : j < 2
          · have htk : List.take j (writeBytes 2 ps.length ++ packPairs ps)
                = List.take j (writeBytes 2 ps.length) := by
              rw [List.take_append_eq_append_take,
                show j - (writeBytes 2 ps.length).length = 0 by
                  simp [writeBytes_length]; omega]
              simp
            rw [htk, unpack_map16_short f junk live _
              (by simp [List.length_take, writeBytes_length]; omega)]
          · have htk : List.take j (writeBytes 2 ps.length ++ packPairs ps)
                = writeBytes 2 ps.length ++ List.take (j - 2) (packPairs ps) := by
              rw [List.take_append_eq_append_take,
                List.take_of_length_le (by simp [writeBytes_length]; omega)]
              simp [writeBytes_length]
            rw [htk, unpack_map16_payload f junk live _ _ (writeBytes_length 2 _),
              leVal_writeBytes]
            rw [show toSigned 16 (toUns (8 * 2) ((ps.length : Nat) : Int))
                = ((ps.length : Nat) : Int) by
              norm_num
              exact toSigned_toUns (by norm_num) (by norm_num; omega) (by norm_num; omega)]
            rw [unpackMap_nonneg]
            exact mapLoop_take junk ps hIHok hIHtr (j - 2) f (live + 1) []
              (by omega) (by omega)
      · have hhdr : packValue (.mp ps)
            = bm.MP_MAP32 :: (writeBytes 4 ps.length ++ packPairs ps) := by
          simp only [packValue, initContainerMap]
          rw [if_neg (show ¬ ((ps.length : Nat) : Int) ≤ bm.MAX_4BIT by
              simp only [bm.MAX_4BIT]; omega),
            if_neg (show ¬ ((ps.length : Nat) : Int) ≤ bm.MAX_16BIT by
              simp only [bm.MAX_16BIT]; omega)]
          simp
        rw [hhdr] at hk hfuel ⊢
        simp only [List.length_cons, List.length_append, writeBytes_length] at hk hfuel
        rw [List.take_succ_cons]
        by_cases hj : j < 4
        · have htk : List.take j (writeBytes 4 ps.length ++ packPairs ps)
              = List.take j (writeBytes 4 ps.length) := by
            rw [List.take_append_eq_append_take,
              show j - (writeBytes 4 ps.length).length = 0 by
                simp [writeBytes_length]; omega]
            simp
          rw [htk, unpack_map32_short f junk live _
            (by simp [List.length_take, writeBytes_length]; omega)]
        · have htk : List.take j (writeBytes 4 ps.length ++ packPairs ps)
              = writeBytes 4 ps.length ++ List.take (j - 4) (packPairs ps) := by
            rw [List.take_append_eq_append_take,
              List.take_of_length_le (by simp [writeBytes_length]; omega)]
            simp [writeBytes_length]
          rw [htk, unpack_map32_payload f junk live _ _ (writeBytes_length 4 _),
            leVal_writeBytes]
          rw [show toSigned 32 (toUns (8 * 4) ((ps.length : Nat) : Int))
              = ((ps.length : Nat) : Int) by
            norm_num
            exact toSigned_toUns (by norm_num) (by norm_num; omega) (by norm_num; omega)]
          rw [unpackMap_nonneg]
          exact mapLoop_take junk ps hIHok hIHtr (j - 4) f (live + 1) []
            (by omega) (by omega)

theorem take_strlen (s : List Nat) : s.take (strlen s) = s.takeWhile (fun b => b ≠ 0) := by
  induction s with
  | nil => rfl
  | cons a t ih =>
    by_cases ha : a = 0
    · subst ha
      simp [strlen, List.takeWhile]
    · simp only [strlen, List.takeWhile, ha, decide_not, decide_eq_true_eq] at ih ⊢
      simp [ha, List.take_succ_cons, ih, strlen]

theorem takeWhile_no_nul (s : List Nat) (hs : (0 : Nat) ∉ s) :
    s.takeWhile (fun b => b ≠ 0) = s := by
  induction s with
  | nil => rfl
  | cons a t ih =>
    simp only [List.mem_cons, not_or] at hs
    rw [List.takeWhile_cons_of_pos (by simpa using fun h => hs.1 h.symm), ih hs.2]

theorem takeWhile_until_nul (s t : List Nat) (hs : (0 : Nat) ∉ s) :
    (s ++ 0 :: t).takeWhile (fun b => b ≠ 0) = s := by
  induction s with
  | nil =>
    rw [List.nil_append, List.takeWhile_cons_of_neg (by simp)]
  | cons a s1 ih =>
    simp only [List.mem_cons, not_or] at hs
    rw [List.cons_append,
      List.takeWhile_cons_of_pos (by simpa using fun h => hs.1 h.symm), ih hs.2]

theorem take_wcslen (s : List Nat) : s.take (wcslen s) = s.takeWhile (fun b => b ≠ 0) :=
  take_strlen s

/-- C7: the Encoder produces the spec's concrete vectors: `encode(0)` is
`00`, `encode(-1)` is `FF`, `encode(128)` is `CC 80`, the empty string is
`A0`, and an array of three zero integers is `93 00 00 00`. -/
theorem encode_concrete_vectors :
    pack_long 0 = [0x00] ∧
    pack_long (-1) = [0xff] ∧
    pack_long 128 = [0xcc, 0x80] ∧
    pack_string [] = [0xa0] ∧
    packValue (.arr [.int 0, .int 0, .int 0]) = [0x93, 0x00, 0x00, 0x00] :=
  ⟨by decide, by decide, by decide, by decide, by decide⟩

/-- C1 (code bug): `unpack`'s `MP_INT32` case reads the 4 payload bytes into
`uiVal` but constructs `new Int(iVal)` from the uninitialised local `iVal`
(the `junk` parameter), so decoding `pack(-32769)` yields whatever junk held
rather than -32769: the scalar round-trip fails on every int32-encoded
value.  With junk = 0 the decoded object is `Int 0`, not `Int (-32769)`. -/
theorem roundtrip_int32_uninitialised :
    pack_long (-32769) = [0xd2, 0xff, 0x7f, 0xff, 0xff] ∧
    (∀ junk : Int, Unpacker.unpack 2 junk (pack_long (-32769)) 0
      = (.ok (some (.int junk)), [], 1)) ∧
    Obj.int 0 ≠ Obj.int (-32769) :=
  ⟨by decide, fun junk => rfl, by simp⟩

/-- C2 (code bug): `Packer::write<T>` copies the native object
representation with no byte-order conversion, so on a little-endian host
every multi-byte payload is written least-significant byte first:
`pack(256)` yields `CD 00 01`, not the big-endian `CD 01 00` the MessagePack
format requires; the same holds for the uint32 payload and the raw16 length
field. -/
theorem pack_multibyte_little_endian :
    pack_long 256 = [0xcd, 0x00, 0x01] ∧
    pack_long 256 ≠ [0xcd, 0x01, 0x00] ∧
    pack_long 65536 = [0xce, 0x00, 0x00, 0x01, 0x00] ∧
    pack_raw (List.replicate 32 0x61) = 0xda :: 0x20 :: 0x00 :: List.replicate 32 0x61 :=
  ⟨by decide, by decide, by decide, by decide⟩

/-- C4 counterexample: decoding the reserved header byte 0xC1 raises no
error at all — the call returns successfully carrying a null `Object*`
(`Except.ok none`), so the claim that it "fails with a MalformedHeader
error" is false as stated (the only error the decoder can raise is the
`StreamErr` exception, and none is raised here). -/
theorem unknown_header_no_error_cex :
    Unpacker.unpack 1 0 [0xc1] 0 = (.ok none, [], 0) ∧
    Unpacker.unpack 1 0 [0xc1] 0 ≠ (.error .exhausted, [], 0) :=
  ⟨rfl, by
    intro h
    rw [show Unpacker.unpack 1 0 [0xc1] 0 = ((.ok none, [], 0) : URes) from rfl] at h
    simp at h⟩

/-- C4 amended: for every header byte outside every tag and masked range
(0xC1, 0xC4-0xC9, 0xD4-0xD9), `unpack` falls through the whole dispatch and
returns a null pointer, consuming only the header byte: no Value is ever
produced by a fallback interpretation, and no exception is thrown. -/
theorem unknown_header_returns_null (b : Nat)
    (hb : b = 0xc1 ∨ (0xc4 ≤ b ∧ b ≤ 0xc9) ∨ (0xd4 ≤ b ∧ b ≤ 0xd9))
    (fuel : Nat) (junk : Int) (rest : List Nat) (live : Nat) :
    Unpacker.unpack (fuel + 1) junk (b :: rest) live = (.ok none, rest, live) := by
  rcases hb with rfl | ⟨h1, h2⟩ | ⟨h1, h2⟩
  · rfl
  · interval_cases b <;> rfl
  · interval_cases b <;> rfl

theorem unknown_header_returns_null_witness :
    ((0xc4 : Nat) = 0xc1 ∨ ((0xc4 : Nat) ≤ 0xc4 ∧ (0xc4 : Nat) ≤ 0xc9)
      ∨ ((0xd4 : Nat) ≤ 0xc4 ∧ (0xc4 : Nat) ≤ 0xd9)) ∧
    Unpacker.unpack 1 0 [0xc4, 7] 0 = (.ok none, [7], 0) :=
  ⟨by decide, unknown_header_returns_null 0xc4 (by decide) 0 0 [7] 0⟩

theorem packList_replicate_nil_length (n : Nat) :
    (packList (List.replicate n MValue.nil)).length = n := by
  induction n with
  | zero => rfl
  | succ n ih => simp [List.replicate_succ, packList, packValue, ih]

/-- C5 counterexample, four truncations of encoded values that together
refute the claim and force each change in the amended version.
First, `[0x91]` — `encode(array [0]) = [0x91, 0x00]` cut at offset 1 —
raises StreamExhausted and returns no Value, but the `detail::Array`
allocated during the failed call is never released: the allocation ledger
ends at 1, not 0, refuting "releases any children already allocated during
the failed call before the error propagates".
Second, the encoding of an array of 0x8000 nils cut at offset 3 (just
after its array16 count field): `unpack` reads the count back through the
signed `short sVal` as -32768 and returns a null pointer with no
StreamExhausted at all, refuting the claim for container counts in
`[0x8000, 0xffff]`.
Third and fourth, the encoding of a raw of `2^31` bytes and of an array of
`2^31` nils, each cut at offset 5 (just after the 32-bit length/count
field): the field comes back through the signed `int iVal` as negative and
`unpack` again returns null with no StreamExhausted, refuting the claim
for raw lengths and container counts of `2^31` and above. -/
theorem truncation_leaks_allocations_cex :
    (List.take 1 (packValue (.arr [.int 0])) = [0x91] ∧
      1 < (packValue (.arr [.int 0])).length ∧
      Unpacker.unpack 2 0 [0x91] 0 = (.error .exhausted, [], 1) ∧
      (1 : Nat) ≠ 0) ∧
    (List.take 3 (packValue (.arr (List.replicate 0x8000 MValue.nil))) = [0xdc, 0x00, 0x80] ∧
      3 < (packValue (.arr (List.replicate 0x8000 MValue.nil))).length ∧
      Unpacker.unpack 1 0 [0xdc, 0x00, 0x80] 0 = (.ok none, [], 0)) ∧
    (List.take 5 (packValue (.raw (List.replicate (2 ^ 31) 0)))
        = [0xdb, 0x00, 0x00, 0x00, 0x80] ∧
      5 < (packValue (.raw (List.replicate (2 ^ 31) 0))).length ∧
      Unpacker.unpack 1 0 [0xdb, 0x00, 0x00, 0x00, 0x80] 0 = (.ok none, [], 0)) ∧
    (List.take 5 (packValue (.arr (List.replicate (2 ^ 31) MValue.nil)))
        = [0xdd, 0x00, 0x00, 0x00, 0x80] ∧
      5 < (packValue (.arr (List.replicate (2 ^ 31) MValue.nil))).length ∧
      Unpacker.unpack 1 0 [0xdd, 0x00, 0x00, 0x00, 0x80] 0 = (.ok none, [], 0)) := by
  have harr16 : packValue (.arr (List.replicate 0x8000 MValue.nil))
      = [0xdc, 0x00, 0x80] ++ packList (List.replicate 0x8000 MValue.nil) := by
    simp only [packValue, List.length_replicate]
    rw [show initContainerArray 0x8000 = [0xdc, 0x00, 0x80] from by decide]
  have hraw32 : packValue (.raw (List.replicate (2 ^ 31) (0 : Nat)))
      = [0xdb, 0x00, 0x00, 0x00, 0x80] ++ List.replicate (2 ^ 31) 0 := by
    simp only [packValue, pack_raw, List.length_replicate]
    rw [if_neg (by norm_num [bm.MAX_5BIT]), if_neg (by norm_num [bm.MAX_16BIT]),
      show writeBytes 4 ((2 ^ 31 : Nat) : Int) = [0x00, 0x00, 0x00, 0x80] from by decide]
    rfl
  have harr32 : packValue (.arr (List.replicate (2 ^ 31) MValue.nil))
      = [0xdd, 0x00, 0x00, 0x00, 0x80] ++ packList (List.replicate (2 ^ 31) MValue.nil) := by
    simp only [packValue, List.length_replicate]
    rw [show initContainerArray (2 ^ 31) = [0xdd, 0x00, 0x00, 0x00, 0x80] from by decide]
  refine ⟨⟨by decide, by decide, rfl, by decide⟩, ⟨?_, ?_, rfl⟩, ⟨?_, ?_, rfl⟩, ⟨?_, ?_, rfl⟩⟩
  · rw [harr16, show (3 : Nat) = ([0xdc, 0x00, 0x80] : List Nat).length from rfl,
      List.take_left]
  · rw [harr16, List.length_append, packList_replicate_nil_length]
    decide
  · rw [hraw32, show (5 : Nat) = ([0xdb, 0x00, 0x00, 0x00, 0x80] : List Nat).length from rfl,
      List.take_left]
  · rw [hraw32, List.length_append, List.length_replicate]
    decide
  · rw [harr32, show (5 : Nat) = ([0xdd, 0x00, 0x00, 0x00, 0x80] : List Nat).length from rfl,
      List.take_left]
  · rw [harr32, List.length_append, packList_replicate_nil_length]
    decide

/-- C5 amended: decoding the encoding of any value truncated at any byte
offset strictly inside it raises StreamExhausted and returns no partially
constructed Value to the caller, provided every raw byte-buffer in the
value is shorter than `2^31` and every array/map count is at most `0x7fff`
or strictly between `0xffff` and `2^31` (the exact conditions of
`MValue.wfb`); outside these bounds the claim is false, because the decoder
reads the count/length field back through a signed type as a negative
number and returns a null pointer with no StreamExhausted, as the second,
third and fourth parts of the counterexample exhibit.  The allocation
ledger never shrinks, so objects allocated during the failed call are
leaked rather than released. -/
theorem truncation_raises_streamexhausted (v : MValue) (hwf : v.wfb = true)
    (k : Nat) (hk : k < (packValue v).length) (junk : Int) (live : Nat) :
    (Unpacker.unpack ((packValue v).length + 1) junk (List.take k (packValue v)) live).1
      = .error .exhausted ∧
    live ≤ (Unpacker.unpack ((packValue v).length + 1) junk
      (List.take k (packValue v)) live).2.2 :=
  ⟨unpack_take_aux (sizeOf v) v (Nat.le_refl _) hwf k hk _ junk live (Nat.lt_succ_self _),
   unpack_live_mono _ junk _ live⟩

theorem truncation_raises_streamexhausted_witness :
    (MValue.arr [.int 0]).wfb = true ∧
    1 < (packValue (.arr [.int 0])).length ∧
    (Unpacker.unpack ((packValue (.arr [.int 0])).length + 1) 0
      (List.take 1 (packValue (.arr [.int 0]))) 5).1 = .error .exhausted ∧
    5 ≤ (Unpacker.unpack ((packValue (.arr [.int 0])).length + 1) 0
      (List.take 1 (packValue (.arr [.int 0]))) 5).2.2 :=
  ⟨by decide, by decide,
   (truncation_raises_streamexhausted (.arr [.int 0]) (by decide) 1 (by decide) 0 5).1,
   (truncation_raises_streamexhausted (.arr [.int 0]) (by decide) 1 (by decide) 0 5).2⟩

/-- C6: `Object::getAs` compares the requested type's corresponding tag
(`detail::type_cast<T>::id`) with the Value's actual variant tag: when they
differ it throws `std::bad_cast` (the TypeMismatch failure), and when they
match it returns a reference to the very same object — no copy of the
stored payload, modelled as returning the object itself. -/
theorem getAs_checks_requested_tag (T : CType) (o : Obj) :
    (type_cast T = o.getType → Obj.getAs (type_cast T) o = .ok o) ∧
    (type_cast T ≠ o.getType → Obj.getAs (type_cast T) o = .error ()) := by
  constructor
  · intro h
    rw [Obj.getAs, if_neg (by simp [h])]
  · intro h
    rw [Obj.getAs, if_pos h]

theorem getAs_checks_requested_tag_witness :
    type_cast .string = (Obj.raw [65, 66]).getType ∧
    Obj.getAs (type_cast .string) (.raw [65, 66]) = .ok (.raw [65, 66]) ∧
    type_cast .int32 ≠ (Obj.raw [65, 66]).getType ∧
    Obj.getAs (type_cast .int32) (.raw [65, 66]) = .error () :=
  ⟨by decide,
   (getAs_checks_requested_tag .string (.raw [65, 66])).1 (by decide),
   by decide,
   (getAs_checks_requested_tag .int32 (.raw [65, 66])).2 (by decide)⟩

/-- C8: a header in 0x00-0x7F builds `detail::Char` (the CHAR / int8
variant) and a header in 0xE0-0xFF builds `detail::Int` (the INTEGER /
int32 variant), so `getAs` for any other integer width fails with the type
mismatch even when the numeric value would fit that width. -/
theorem fixnum_variant_tags (b : Nat) (fuel : Nat) (junk : Int)
    (rest : List Nat) (live : Nat) :
    (b ≤ 0x7f →
      Unpacker.unpack (fuel + 1) junk (b :: rest) live
        = (.ok (some (.char (b : Int))), rest, live + 1) ∧
      (Obj.char (b : Int)).getType = .CHAR ∧
      Obj.getAs .SHORT (.char (b : Int)) = .error () ∧
      Obj.getAs .INTEGER (.char (b : Int)) = .error () ∧
      Obj.getAs .LONG (.char (b : Int)) = .error ()) ∧
    (0xe0 ≤ b → b ≤ 0xff →
      Unpacker.unpack (fuel + 1) junk (b :: rest) live
        = (.ok (some (.int ((b : Int) - 256))), rest, live + 1) ∧
      (Obj.int ((b : Int) - 256)).getType = .INTEGER ∧
      Obj.getAs .CHAR (.int ((b : Int) - 256)) = .error () ∧
      Obj.getAs .SHORT (.int ((b : Int) - 256)) = .error () ∧
      Obj.getAs .LONG (.int ((b : Int) - 256)) = .error ()) := by
  constructor
  · intro hb
    exact ⟨unpack_posfixnum b hb fuel junk rest live, rfl, rfl, rfl, rfl⟩
  · intro h1 h2
    exact ⟨unpack_negfixnum b h1 h2 fuel junk rest live, rfl, rfl, rfl, rfl⟩

theorem fixnum_variant_tags_witness :
    ((5 : Nat) ≤ 0x7f ∧ Unpacker.unpack 1 0 [5] 0 = (.ok (some (.char 5)), [], 1)) ∧
    ((0xe0 : Nat) ≤ 0xff ∧ (0xff : Nat) ≤ 0xff ∧
      Unpacker.unpack 1 0 [0xff] 0 = (.ok (some (.int (-1))), [], 1)) :=
  ⟨⟨by decide, ((fixnum_variant_tags 5 0 0 [] 0).1 (by decide)).1⟩,
   ⟨by decide, by decide, ((fixnum_variant_tags 0xff 0 0 [] 0).2 (by decide) (by decide)).1⟩⟩

/-- C9: a raw32 / array32 / map32 header whose 4-byte field denotes at
least 2^31 is read into the signed `int iVal`, observed as a negative size
by `unpackRaw` / `unpackList` / `unpackMap`, and `unpack` returns a null
pointer — `Except.ok none`, neither a Value nor any error — with the input
positioned immediately after the length field. -/
theorem size32_negative_returns_null (b0 b1 b2 b3 : Nat) (h0 : b0 < 256) (h1 : b1 < 256)
    (h2 : b2 < 256) (h3 : b3 < 256) (hbig : 2 ^ 31 ≤ leVal [b0, b1, b2, b3])
    (fuel : Nat) (junk : Int) (rest : List Nat) (live : Nat) :
    Unpacker.unpack (fuel + 1) junk (bm.MP_RAW32 :: b0 :: b1 :: b2 :: b3 :: rest) live
      = (.ok none, rest, live) ∧
    Unpacker.unpack (fuel + 1) junk (bm.MP_ARRAY32 :: b0 :: b1 :: b2 :: b3 :: rest) live
      = (.ok none, rest, live) ∧
    Unpacker.unpack (fuel + 1) junk (bm.MP_MAP32 :: b0 :: b1 :: b2 :: b3 :: rest) live
      = (.ok none, rest, live) := by
  have hlt : leVal [b0, b1, b2, b3] < 2 ^ 32 := by
    simp only [leVal]
    norm_num
    omega
  have hneg : toSigned 32 (leVal [b0, b1, b2, b3]) < 0 := by
    rw [toSigned_of_ge (by norm_num at hbig ⊢; omega) hlt]
    norm_num at hlt ⊢
    omega
  refine ⟨?_, ?_, ?_⟩
  · rw [show (bm.MP_RAW32 :: b0 :: b1 :: b2 :: b3 :: rest)
        = bm.MP_RAW32 :: ([b0, b1, b2, b3] ++ rest) from rfl,
      unpack_raw32_payload fuel junk live [b0, b1, b2, b3] rest rfl]
    exact unpackRaw_neg _ _ _ hneg
  · rw [show (bm.MP_ARRAY32 :: b0 :: b1 :: b2 :: b3 :: rest)
        = bm.MP_ARRAY32 :: ([b0, b1, b2, b3] ++ rest) from rfl,
      unpack_array32_payload fuel junk live [b0, b1, b2, b3] rest rfl]
    exact unpackList_neg _ _ _ _ hneg
  · rw [show (bm.MP_MAP32 :: b0 :: b1 :: b2 :: b3 :: rest)
        = bm.MP_MAP32 :: ([b0, b1, b2, b3] ++ rest) from rfl,
      unpack_map32_payload fuel junk live [b0, b1, b2, b3] rest rfl]
    exact unpackMap_neg _ _ _ _ hneg

theorem size32_negative_returns_null_witness :
    (2 ^ 31 ≤ leVal [0, 0, 0, 0x80]) ∧
    Unpacker.unpack 1 0 (bm.MP_RAW32 :: 0 :: 0 :: 0 :: 0x80 :: [9]) 0 = (.ok none, [9], 0) :=
  ⟨by decide,
   (size32_negative_returns_null 0 0 0 0x80 (by decide) (by decide) (by decide) (by decide)
     (by decide) 0 0 [9] 0).1⟩

/-- C10: `pack(const std::basic_string<T>&)` calls `pack(value.c_str())`,
the NUL-terminated C-string overload, whose length comes from `strlen` /
`wcslen`: bytes at and after the first interior NUL are never written to
the wire, and NUL-free strings are encoded in full. -/
theorem basic_string_truncates_at_nul (s t : List Nat) (hs : (0 : Nat) ∉ s) :
    pack_string s = pack_raw s ∧
    pack_string (s ++ 0 :: t) = pack_raw s ∧
    pack_wstring s = pack_raw (s.flatMap (leBytes 4)) ∧
    pack_wstring (s ++ 0 :: t) = pack_raw (s.flatMap (leBytes 4)) := by
  refine ⟨?_, ?_, ?_, ?_⟩
  · rw [pack_string, pack_cstr, take_strlen, takeWhile_no_nul s hs]
  · rw [pack_string, pack_cstr, take_strlen, takeWhile_until_nul s t hs]
  · rw [pack_wstring, pack_wcstr, take_wcslen, takeWhile_no_nul s hs]
  · rw [pack_wstring, pack_wcstr, take_wcslen, takeWhile_until_nul s t hs]

theorem basic_string_truncates_at_nul_witness :
    ((0 : Nat) ∉ [104]) ∧
    pack_string [104, 0, 105] = pack_raw [104] ∧
    pack_string [104] = pack_raw [104] :=
  ⟨by decide,
   (basic_string_truncates_at_nul [104] [105] (by decide)).2.1,
   (basic_string_truncates_at_nul [104] [105] (by decide)).1⟩

/-- C3: the Encoder's integer width selection is a pure function of sign
and magnitude that always picks the smallest wire representation holding
the value — each clause's guards say the value does not fit the next
smaller representation and fits the chosen one — and the Decoder accepts
every multi-byte width tag whatever the payload's magnitude (the payload
bytes `bs` are arbitrary). -/
theorem pack_minimal_width_decode_any_width :
    (∀ v : Int, 0 ≤ v →
      (v < 2 ^ 7 → pack_long v = [v.toNat]) ∧
      (2 ^ 7 ≤ v → v < 2 ^ 8 → pack_long v = [0xcc, v.toNat]) ∧
      (2 ^ 8 ≤ v → v < 2 ^ 16 → pack_long v = 0xcd :: leBytes 2 v.toNat) ∧
      (2 ^ 16 ≤ v → v < 2 ^ 32 → pack_long v = 0xce :: leBytes 4 v.toNat) ∧
      (2 ^ 32 ≤ v → v < 2 ^ 64 → pack_long v = 0xcf :: leBytes 8 v.toNat)) ∧
    (∀ v : Int, v < 0 →
      (-2 ^ 5 ≤ v → pack_long v = [(v + 2 ^ 8).toNat]) ∧
      (v < -2 ^ 5 → -2 ^ 7 ≤ v → pack_long v = [0xd0, (v + 2 ^ 8).toNat]) ∧
      (v < -2 ^ 7 → -2 ^ 15 ≤ v → pack_long v = 0xd1 :: leBytes 2 (v + 2 ^ 16).toNat) ∧
      (v < -2 ^ 15 → -2 ^ 31 ≤ v → pack_long v = 0xd2 :: leBytes 4 (v + 2 ^ 32).toNat) ∧
      (v < -2 ^ 31 → -2 ^ 63 ≤ v → pack_long v = 0xd3 :: leBytes 8 (v + 2 ^ 64).toNat)) ∧
    (∀ fuel junk live (bs rest : List Nat), bs.length = 1 →
      Unpacker.unpack (fuel + 1) junk (bm.MP_UINT8 :: (bs ++ rest)) live
        = (.ok (some (.uchar (leVal bs))), rest, live + 1)) ∧
    (∀ fuel junk live (bs rest : List Nat), bs.length = 2 →
      Unpacker.unpack (fuel + 1) junk (bm.MP_UINT16 :: (bs ++ rest)) live
        = (.ok (some (.ushort (leVal bs))), rest, live + 1)) ∧
    (∀ fuel junk live (bs rest : List Nat), bs.length = 4 →
      Unpacker.unpack (fuel + 1) junk (bm.MP_UINT32 :: (bs ++ rest)) live
        = (.ok (some (.uint (leVal bs))), rest, live + 1)) ∧
    (∀ fuel junk live (bs rest : List Nat), bs.length = 8 →
      Unpacker.unpack (fuel + 1) junk (bm.MP_UINT64 :: (bs ++ rest)) live
        = (.ok (some (.ulong (leVal bs))), rest, live + 1)) ∧
    (∀ fuel junk live (bs rest : List Nat), bs.length = 1 →
      Unpacker.unpack (fuel + 1) junk (bm.MP_INT8 :: (bs ++ rest)) live
        = (.ok (some (.char (toSigned 8 (leVal bs)))), rest, live + 1)) ∧
    (∀ fuel junk live (bs rest : List Nat), bs.length = 2 →
      Unpacker.unpack (fuel + 1) junk (bm.MP_INT16 :: (bs ++ rest)) live
        = (.ok (some (.short (toSigned 16 (leVal bs)))), rest, live + 1)) ∧
    (∀ fuel junk live (bs rest : List Nat), bs.length = 4 →
      Unpacker.unpack (fuel + 1) junk (bm.MP_INT32 :: (bs ++ rest)) live
        = (.ok (some (.int junk)), rest, live + 1)) ∧
    (∀ fuel junk live (bs rest : List Nat), bs.length = 8 →
      Unpacker.unpack (fuel + 1) junk (bm.MP_INT64 :: (bs ++ rest)) live
        = (.ok (some (.long (toSigned 64 (leVal bs)))), rest, live + 1)) := by
  refine ⟨?_, ?_, unpack_uint8_payload, unpack_uint16_payload, unpack_uint32_payload,
    unpack_uint64_payload, unpack_int8_payload, unpack_int16_payload,
    unpack_int32_payload, unpack_int64_payload⟩
  · intro v h0
    refine ⟨?_, ?_, ?_, ?_, ?_⟩
    · intro h1
      norm_num at h1
      simp only [pack_long, bm.MAX_7BIT, bm.MP_FIXNUM]
      rw [if_pos h0, if_pos (by omega)]
      rw [show toUns 8 v ||| 0 = toUns 8 v from Nat.or_zero _,
        toUns_of_nonneg h0 (by norm_num; omega)]
    · intro h1 h2
      norm_num at h1 h2
      simp only [pack_long, bm.MAX_7BIT, bm.MAX_8BIT, bm.MP_UINT8]
      rw [if_pos h0, if_neg (by omega), if_pos (by omega), writeBytes,
        toUns_of_nonneg h0 (by norm_num; omega)]
      have hm : v.toNat % 256 = v.toNat := Nat.mod_eq_of_lt (by omega)
      simp [leBytes, hm]
    · intro h1 h2
      norm_num at h1 h2
      simp only [pack_long, bm.MAX_7BIT, bm.MAX_8BIT, bm.MAX_16BIT, bm.MP_UINT16]
      rw [if_pos h0, if_neg (by omega), if_neg (by omega), if_pos (by omega), writeBytes,
        toUns_of_nonneg h0 (by norm_num; omega)]
    · intro h1 h2
      norm_num at h1 h2
      simp only [pack_long, bm.MAX_7BIT, bm.MAX_8BIT, bm.MAX_16BIT, bm.MAX_32BIT,
        bm.MP_UINT32]
      rw [if_pos h0, if_neg (by omega), if_neg (by omega), if_neg (by omega),
        if_pos (by omega), writeBytes, toUns_of_nonneg h0 (by norm_num; omega)]
    · intro h1 h2
      norm_num at h1 h2
      simp only [pack_long, bm.MAX_7BIT, bm.MAX_8BIT, bm.MAX_16BIT, bm.MAX_32BIT,
        bm.MP_UINT64]
      rw [if_pos h0, if_neg (by omega), if_neg (by omega), if_neg (by omega),
        if_neg (by omega), writeBytes, toUns_of_nonneg h0 (by norm_num; omega)]
  · intro v hneg
    refine ⟨?_, ?_, ?_, ?_, ?_⟩
    · intro h1
      norm_num at h1
      simp only [pack_long, bm.MAX_5BIT, bm.MP_NEGATIVE_FIXNUM]
      rw [if_neg (by omega), if_pos (by omega)]
      rw [show toUns 8 v ||| 0xe0 = toUns 8 v from toUns8_neg_or v (by omega) hneg]
      have hc := toUns_cast_of_neg (w := 8) (v := v) (by norm_num; omega) hneg
      norm_num at hc ⊢
      omega
    · intro h1 h2
      norm_num at h1 h2
      simp only [pack_long, bm.MAX_5BIT, bm.MAX_7BIT, bm.MP_INT8]
      rw [if_neg (by omega), if_neg (by omega), if_pos (by omega), writeBytes]
      have hc := toUns_cast_of_neg (w := 8) (v := v) (by norm_num; omega) hneg
      have hu8 := toUns_lt 8 v
      norm_num at hc hu8 ⊢
      have hm : toUns 8 v % 256 = toUns 8 v := Nat.mod_eq_of_lt hu8
      simp [leBytes, hm]
      omega
    · intro h1 h2
      norm_num at h1 h2
      simp only [pack_long, bm.MAX_5BIT, bm.MAX_7BIT, bm.MAX_15BIT, bm.MP_INT16]
      rw [if_neg (by omega), if_neg (by omega), if_neg (by omega), if_pos (by omega),
        writeBytes]
      have hc := toUns_cast_of_neg (w := 16) (v := v) (by norm_num; omega) hneg
      norm_num at hc ⊢
      rw [show toUns 16 v = (v + 65536).toNat by omega]
    · intro h1 h2
      norm_num at h1 h2
      simp only [pack_long, bm.MAX_5BIT, bm.MAX_7BIT, bm.MAX_15BIT, bm.MAX_31BIT,
        bm.MP_INT32]
      rw [if_neg (by omega), if_neg (by omega), if_neg (by omega), if_neg (by omega),
        if_pos (by omega), writeBytes]
      have hc := toUns_cast_of_neg (w := 32) (v := v) (by norm_num; omega) hneg
      norm_num at hc ⊢
      rw [show toUns 32 v = (v + 4294967296).toNat by omega]
    · intro h1 h2
      norm_num at h1 h2
      simp only [pack_long, bm.MAX_5BIT, bm.MAX_7BIT, bm.MAX_15BIT, bm.MAX_31BIT,
        bm.MP_INT64]
      rw [if_neg (by omega), if_neg (by omega), if_neg (by omega), if_neg (by omega),
        if_neg (by omega), writeBytes]
      have hc := toUns_cast_of_neg (w := 64) (v := v) (by norm_num; omega) hneg
      norm_num at hc ⊢
      rw [show toUns 64 v = (v + 18446744073709551616).toNat by omega]

theorem pack_minimal_width_decode_any_width_witness :
    ((0 : Int) ≤ 300 ∧ 2 ^ 8 ≤ (300 : Int) ∧ (300 : Int) < 2 ^ 16 ∧
      pack_long 300 = 0xcd :: leBytes 2 (300 : Int).toNat) ∧
    ((-300 : Int) < 0 ∧ (-300 : Int) < -2 ^ 7 ∧ -2 ^ 15 ≤ (-300 : Int) ∧
      pack_long (-300) = 0xd1 :: leBytes 2 ((-300 : Int) + 2 ^ 16).toNat) ∧
    Unpacker.unpack 1 0 (bm.MP_UINT64 :: ([1, 0, 0, 0, 0, 0, 0, 0] ++ [])) 0
      = (.ok (some (.ulong (leVal [1, 0, 0, 0, 0, 0, 0, 0]))), [], 1) :=
  ⟨⟨by decide, by decide, by decide,
    ((pack_minimal_width_decode_any_width.1 300 (by decide)).2.2.1) (by decide) (by decide)⟩,
   ⟨by decide, by decide, by decide,
    ((pack_minimal_width_decode_any_width.2.1 (-300) (by decide)).2.2.1) (by decide) (by decide)⟩,
   pack_minimal_width_decode_any_width.2.2.2.2.2.1 0 0 0 [1, 0, 0, 0, 0, 0, 0, 0] [] rfl⟩
